import Mathlib

/-!
Verification of core pipeline components of the uiCA throughput simulator
(src/uiCA.py), by shallow embedding in Lean 4.

Conventions used throughout:
* machine registers are represented by their canonical names (the external
  helper x64_lib.getCanonicalReg is applied before the data enters the model);
* Python `None` becomes `Option.none`; integer cycle counts become `Int`
  (they can be compared to `-1` in the source), other counts become `Nat`;
* a Python `heapq` min-heap of `(idx, uop)` pairs is modelled by the list of
  its elements; the head of the heap is the element with minimal `idx`
  (indices are globally unique in the source, `Uop.idx_iter`);
* Python dictionaries become association lists (in insertion order).
-/

namespace UiCA

/-! ## Store-buffer fingerprints (uiCA.py, `Renamer.getStoreBufferKey`)

A store-buffer key is the tuple `(abstractBase, abstractIndex, scale,
displacement)`; the first two components are abstract values (integers
produced by the renamer's abstract-value generator). -/

/-- The memory fingerprint `(base, index, scale, disp)` used as store-buffer
key (uiCA.py line 421-422). -/
structure AbstractAddress where
  base : Int
  index : Int
  scale : Int
  disp : Int
deriving DecidableEq, Repr

/-- Two fingerprints indicate different cache lines: some component of the
abstract base/index/scale differs, or the displacements are at least 64
bytes apart (uiCA.py line 1022). -/
def differentCacheLine (a b : AbstractAddress) : Prop :=
  a.base ≠ b.base ∨ a.index ≠ b.index ∨ a.scale ≠ b.scale ∨ 64 ≤ (a.disp - b.disp).natAbs

/-- Two fingerprints indicate the same cache line: all of base, index and
scale agree and the displacements are less than 64 bytes apart. -/
def sameCacheLine (a b : AbstractAddress) : Prop :=
  a.base = b.base ∧ a.index = b.index ∧ a.scale = b.scale ∧ (a.disp - b.disp).natAbs < 64

instance (a b : AbstractAddress) : Decidable (differentCacheLine a b) := by
  unfold differentCacheLine; infer_instance

instance (a b : AbstractAddress) : Decidable (sameCacheLine a b) := by
  unfold sameCacheLine; infer_instance

/-! ## RenamedOperand.getReadyCycle (uiCA.py lines 183-217)

`RenamedOperand.__ready` is the memoized ready cycle; `uop` is the producing
uop.  The producing uop is represented by the fields of it that
`getReadyCycle` reads: `dispatched`, `prop.isLoadUop`, `prop.latencies`
(a map from output operands to latencies, defaulting to 1), and
`storeBufferEntry`.  Operands are identified by numeric ids. -/

/-- The two ready cycles of a `StoreBufferEntry` (uiCA.py lines 183-188). -/
structure StoreBufferEntry where
  addressReadyCycle : Option Int
  dataReadyCycle : Option Int
deriving DecidableEq, Repr

/-- The fields of the producing `Uop` that `getReadyCycle` reads. -/
structure ProducerUop where
  dispatched : Option Int
  isLoadUop : Bool
  /-- `prop.latencies` : operand id to latency. -/
  latencies : List (Nat × Int)
  storeBufferEntry : Option StoreBufferEntry
deriving DecidableEq, Repr

/-- `self.uop.prop.latencies.get(self.nonRenamedOperand, 1)` (line 206);
`nonRenamedOperand` may be `None`, which is never a key. -/
def latenciesGet (l : List (Nat × Int)) (k : Option Nat) : Int :=
  match k with
  | none => 1
  | some k => match l.find? (fun e => e.1 = k) with
              | some e => e.2
              | none => 1

/-- A `RenamedOperand` (uiCA.py lines 190-194): the operand it renames, the
producing uop (if any) and the memoized ready cycle `__ready`. -/
structure RenamedOperand where
  nonRenamedOperand : Option Nat
  uop : Option ProducerUop
  ready : Option Int
deriving DecidableEq, Repr

/-- `RenamedOperand.getReadyCycle` (uiCA.py lines 196-217).  Returns the
computed ready cycle (`none` = Python `None`, "not yet known") together with
the updated operand (the memoization of `__ready`). -/
def getReadyCycle (ro : RenamedOperand) : Option Int × RenamedOperand :=
  match ro.ready with
  | some r => (some r, ro)
  | none =>
    match ro.uop with
    | none => (some (-1), { ro with ready := some (-1) })
    | some u =>
      match u.dispatched with
      | none => (none, ro)
      | some d =>
        let lat := latenciesGet u.latencies ro.nonRenamedOperand
        if u.isLoadUop then
          match u.storeBufferEntry with
          | some sb =>
            match sb.addressReadyCycle, sb.dataReadyCycle with
            | some a, some dr =>
              let memReady := max a dr + 4
              let r := max (d + lat) memReady
              (some r, { ro with ready := some r })
            | some _, none => (none, ro)
            | none, _ => (none, ro)
          | none => (some (d + lat), { ro with ready := some (d + lat) })
        else
          (some (d + lat), { ro with ready := some (d + lat) })

/-! ## Scheduler.getReadyForDispatchCycle (uiCA.py lines 1270-1287) -/

/-- The fold over `uop.renamedInputOperands` (lines 1271-1279): the maximum
of the inputs' ready cycles starting from `-1`; `none` as soon as some input
ready cycle is not yet known. -/
def opReadyCycleOfInputs : List (Option Int) → Option Int
  | [] => some (-1)
  | c :: cs =>
    match c, opReadyCycleOfInputs cs with
    | some v, some m => some (max v m)
    | _, _ => none

/-- `Scheduler.getReadyForDispatchCycle` (uiCA.py lines 1270-1287), as a
function of the clock, the containing fused uop's issue cycle, the
configuration's `issueDispatchDelay`, and the ready cycles of the renamed
input operands. -/
def getReadyForDispatchCycle (clock issued issueDispatchDelay : Int)
    (inputReadyCycles : List (Option Int)) : Option Int :=
  match opReadyCycleOfInputs inputReadyCycles with
  | none => none
  | some opReadyCycle =>
    let readyCycle :=
      if opReadyCycle < issued + issueDispatchDelay then
        issued + issueDispatchDelay
      else if opReadyCycle = issued + issueDispatchDelay
              ∨ opReadyCycle = issued + issueDispatchDelay + 1 then
        opReadyCycle + 1
      else
        opReadyCycle
    some (max (clock + 1) readyCycle)

/-- Modelled from the claim wording (C3): `readyForDispatch` is
`max(clock+1, max input ready cycle, issued + issueDispatchDelay)` with a
1-cycle bump applied exactly when the maximum input ready cycle equals
`issued + issueDispatchDelay`. -/
def claimedReadyForDispatchCycle (clock issued issueDispatchDelay : Int)
    (inputReadyCycles : List (Option Int)) : Option Int :=
  match opReadyCycleOfInputs inputReadyCycles with
  | none => none
  | some opReadyCycle =>
    let base := max opReadyCycle (issued + issueDispatchDelay)
    let bumped := if opReadyCycle = issued + issueDispatchDelay then base + 1 else base
    some (max (clock + 1) bumped)

/-- The amended formula: same as the claimed one, except that the 1-cycle
bump is applied when the maximum input ready cycle equals
`issued + issueDispatchDelay` or `issued + issueDispatchDelay + 1` (the
"second condition" of uiCA.py line 1284). -/
def amendedReadyForDispatchCycle (clock issued issueDispatchDelay : Int)
    (inputReadyCycles : List (Option Int)) : Option Int :=
  match opReadyCycleOfInputs inputReadyCycles with
  | none => none
  | some opReadyCycle =>
    let base := max opReadyCycle (issued + issueDispatchDelay)
    let bumped :=
      if opReadyCycle = issued + issueDispatchDelay
         ∨ opReadyCycle = issued + issueDispatchDelay + 1 then
        opReadyCycle + 1
      else base
    some (max (clock + 1) bumped)

/-! ## Stack engine: FrontEnd.addStackSyncUop (uiCA.py lines 698-723)

The decision logic of `addStackSyncUop` as a function of the first uop's
`isFirstUopOfInstr` flag, its instruction's operands, and the current
`RSPOffset`.  Registers are canonical names (see the file header).  The
result is the pair (was a StackSyncUop injected into the IDQ?, new
RSPOffset). -/

/-- A register operand as read by the stack engine. -/
structure StackRegOp where
  reg : String
  isImplicitStackOperand : Bool
deriving DecidableEq, Repr

/-- The instruction attributes read by `addStackSyncUop`. -/
structure StackInstr where
  inputRegOperands : List StackRegOp
  memAddrOperands : List StackRegOp
  outputRegOperands : List StackRegOp
  implicitRSPChange : Int
deriving DecidableEq, Repr

/-- Line 705: the instruction reads RSP through a non-implicit-stack
register or address operand. -/
def readsRSP (instr : StackInstr) : Bool :=
  (instr.inputRegOperands ++ instr.memAddrOperands).any
    (fun op => !op.isImplicitStackOperand && op.reg = "RSP")

/-- Line 714: the instruction writes RSP. -/
def writesRSP (instr : StackInstr) : Bool :=
  instr.outputRegOperands.any (fun op => op.reg = "RSP")

/-- `FrontEnd.addStackSyncUop` (uiCA.py lines 698-723): given the head uop's
`isFirstUopOfInstr` flag, its instruction and the current `RSPOffset`,
returns whether a StackSyncUop is appended to the IDQ, and the new
`RSPOffset`. -/
def addStackSyncUop (isFirstUopOfInstr : Bool) (instr : StackInstr)
    (rspOffset : Int) : Bool × Int :=
  if isFirstUopOfInstr then
    let r1 : Bool := decide (rspOffset ≠ 0) && readsRSP instr
    let o1 : Int := if r1 then 0 else rspOffset
    let o2 : Int := o1 + instr.implicitRSPChange
    let r2 : Bool := decide (192 < o2)
    let o3 : Int := if r2 then 0 else o2
    let o4 : Int := if writesRSP instr then 0 else o3
    (r1 || r2, o4)
  else
    (false, rspOffset)

/-! ## Scheduler.dispatchUops (uiCA.py lines 1013-1060)

The per-port ready queues are Python `heapq` min-heaps of `(uop.idx, uop)`
pairs; they are modelled by the lists of their elements, and the heap head
`queue[0]` / `heappop` is the element with minimal `idx`.  `allPorts` is the
ordered list of port labels from the microarchitecture configuration. -/

/-- The fields of a `Uop` that `dispatchUops` reads.  `sbAddr` is
`uop.storeBufferEntry.abstractAddress` (which may be `None`), and
`actualPort` is the port the uop was assigned at issue (the queue it sits
in). -/
structure SchedUop where
  idx : Nat
  divCycles : Nat
  sbAddr : Option AbstractAddress
  actualPort : String
deriving DecidableEq, Repr

/-- The head of a ready heap: the element with minimal `idx` (first such
element on equal indices; indices are globally unique in the source). -/
def heapMin : List SchedUop → Option SchedUop
  | [] => none
  | u :: us =>
    match heapMin us with
    | none => some u
    | some v => if u.idx ≤ v.idx then some u else some v

/-- `heappop`: remove the element returned by `heapMin`. -/
def heapPop (l : List SchedUop) : List SchedUop :=
  match heapMin l with
  | none => l
  | some m => l.eraseP (fun u => u.idx = m.idx)

/-- The scheduler state read and written by `dispatchUops`. -/
structure SchedState where
  allPorts : List String
  /-- `self.readyQueue`: one ready heap per port, keyed by port label. -/
  readyQueue : List (String × List SchedUop)
  /-- `self.readyDivUops`: the heap of divider-consuming uops. -/
  readyDivUops : List SchedUop
  /-- `self.divBusy`. -/
  divBusy : Nat
  /-- `self.uops`: the uops currently in the reservation station. -/
  uops : List SchedUop
  /-- `self.portUsage`. -/
  portUsage : List (String × Int)
  /-- `self.uopsDispatchedInPrevCycle`. -/
  uopsDispatchedInPrevCycle : List SchedUop
deriving Repr

/-- `self.readyQueue[p]`. -/
def lookupQueue (qs : List (String × List SchedUop)) (p : String) : List SchedUop :=
  match qs.find? (fun e => e.1 = p) with
  | some e => e.2
  | none => []

/-- Replace the ready heap of port `p`. -/
def updateQueue (qs : List (String × List SchedUop)) (p : String)
    (q : List SchedUop) : List (String × List SchedUop) :=
  qs.map (fun e => if e.1 = p then (p, q) else e)

/-- Decrement `self.portUsage[p]` (line 1059). -/
def decrUsage (pu : List (String × Int)) (p : String) : List (String × Int) :=
  pu.map (fun e => if e.1 = p then (e.1, e.2 - 1) else e)

/-- The condition of uiCA.py line 1031: on port 0, the divider heap is used
when the divider is free, it has a ready uop, and its head is older than
port 0's head (or port 0 has none). -/
def dispatchUseDiv (port : String) (st : SchedState) (q : List SchedUop) : Bool :=
  port = "0" && st.divBusy = 0 && !st.readyDivUops.isEmpty &&
    (q.isEmpty ||
      match heapMin st.readyDivUops, heapMin q with
      | some d, some h => decide (d.idx < h.idx)
      | _, _ => false)

/-- One iteration of the loop `for port in applicablePorts` of
`dispatchUops` (uiCA.py lines 1029-1056): pop the head of the port's ready
heap (or, on port 0, of the divider heap when the divider is free and its
head is older), charge the divider, remove the uop from the RS and record
it as dispatched in this cycle. -/
def dispatchStep (port : String) (st : SchedState)
    (acc : List (String × SchedUop)) : SchedState × List (String × SchedUop) :=
  if dispatchUseDiv port st (lookupQueue st.readyQueue port) then
    match heapMin st.readyDivUops with
    | none => (st, acc)
    | some u =>
      ({ st with
          readyDivUops := heapPop st.readyDivUops
          divBusy := st.divBusy + u.divCycles
          uops := st.uops.eraseP (fun v => v.idx = u.idx) },
       acc ++ [(port, u)])
  else
    match heapMin (lookupQueue st.readyQueue port) with
    | none => (st, acc)
    | some u =>
      ({ st with
          readyQueue := updateQueue st.readyQueue port
            (heapPop (lookupQueue st.readyQueue port))
          divBusy := st.divBusy + u.divCycles
          uops := st.uops.eraseP (fun v => v.idx = u.idx) },
       acc ++ [(port, u)])

/-- The loop `for port in applicablePorts` of `dispatchUops`. -/
def dispatchOnPorts (ports : List String) (st : SchedState)
    (acc : List (String × SchedUop)) : SchedState × List (String × SchedUop) :=
  match ports with
  | [] => (st, acc)
  | port :: rest =>
    let r := dispatchStep port st acc
    dispatchOnPorts rest r.1 r.2

/-- The computation of `applicablePorts` (uiCA.py lines 1014-1026): when the
heads of the ready heaps of ports 4 and 9 both have a non-null store-buffer
fingerprint and the fingerprints indicate different cache lines, the port of
the younger head (the larger uop index) is removed for this cycle. -/
def applicablePortsOf (st : SchedState) : List String :=
  if "4" ∈ st.allPorts ∧ "9" ∈ st.allPorts ∧ lookupQueue st.readyQueue "4" ≠ []
      ∧ lookupQueue st.readyQueue "9" ≠ [] then
    match heapMin (lookupQueue st.readyQueue "4"),
          heapMin (lookupQueue st.readyQueue "9") with
    | some uop4, some uop9 =>
      match uop4.sbAddr, uop9.sbAddr with
      | some addr4, some addr9 =>
        if differentCacheLine addr4 addr9 then
          if uop4.idx ≤ uop9.idx then st.allPorts.erase "9"
          else st.allPorts.erase "4"
        else st.allPorts
      | _, _ => st.allPorts
    | _, _ => st.allPorts
  else st.allPorts

/-- `Scheduler.dispatchUops` (uiCA.py lines 1013-1060).  Returns the new
state and the list of (port, uop) dispatched in this cycle. -/
def dispatchUops (st : SchedState) : SchedState × List (String × SchedUop) :=
  let r := dispatchOnPorts (applicablePortsOf st) st []
  let usage := r.1.uopsDispatchedInPrevCycle.foldl
    (fun pu u => decrUsage pu u.actualPort) r.1.portUsage
  ({ r.1 with portUsage := usage, uopsDispatchedInPrevCycle := r.2.map (·.2) },
   r.2)

/-! ## Front-end instruction instances

The front-end components (predecoder, decoder, DSB, microcode sequencer,
loop stream detector and the IDQ multiplexer) read the following per-uop
and per-instruction attributes. -/

/-- A `LaminatedUop` as seen by the front end: the flags of its first and
last unfused uops, the stack-engine-relevant attributes of its instruction
(`uop.prop.instr`), the number of unfused uops it contains, and the uop
source label assigned on delivery. -/
structure FELamUop where
  firstUopIsFirstOfInstr : Bool
  lastUopIsLastOfInstr : Bool
  stackInstr : StackInstr
  nUnfused : Nat
  uopSource : Option String := none
deriving DecidableEq, Repr

/-- The static instruction attributes read by the front end. `opcodeLen` is
`len(opcode) // 2` (the instruction length in bytes); `macroFusible` is the
truthiness of `macroFusibleWith`; `stack` holds the register-operand lists
read by the stack engine (`inputRegOperands`, `memAddrOperands`,
`outputRegOperands`, `implicitRSPChange`). -/
structure FEInstr where
  posNominalOpcode : Nat
  opcodeLen : Nat
  lcpStall : Bool
  macroFusedWithPrevInstr : Bool
  macroFusedWithNextInstr : Bool
  macroFusible : Bool
  complexDecoder : Bool
  nAvailableSimpleDecoders : Option Nat
  uopsMITE : Nat
  uopsMS : Nat
  isBranchInstr : Bool
  immediate : Option Int
  stack : StackInstr
deriving DecidableEq, Repr

/-- An `InstrInstance` (uiCA.py lines 1725-1735) as seen by the front end:
its byte address, its instruction, its laminated uops, and the cycle
timestamps the front end writes. -/
structure FEInstrI where
  address : Nat
  instr : FEInstr
  uops : List FELamUop
  source : Option String := none
  predecoded : Option Nat := none
  removedFromIQ : Option Nat := none
deriving DecidableEq, Repr

/-! ## PreDecoder (uiCA.py lines 884-930) -/

/-- `instrInstanceCrosses16ByteBoundary` (uiCA.py lines 1777-1779). -/
def instrInstanceCrosses16ByteBoundary (i : FEInstrI) : Bool :=
  decide (16 < i.address % 16 + i.instr.opcodeLen)

/-- The configuration fields the predecoder reads. -/
structure PreDecoderConfig where
  preDecodeWidth : Nat
  IQWidth : Nat
deriving Repr

/-- The state of the `PreDecoder` (uiCA.py lines 885-890), together with the
instruction queue it feeds. -/
structure PreDecoderState where
  B16BlockQueue : List (List FEInstrI)
  instructionQueue : List FEInstrI
  preDecQueue : List FEInstrI
  stalled : Nat
  partialInstrI : Option FEInstrI
deriving DecidableEq, Repr

/-- The loop `while curBlock and len(self.preDecQueue) < preDecodeWidth`
(uiCA.py lines 903-906): move instructions from the front of the block into
the predecode queue, stopping at the width or at an instruction that crosses
a 16-byte boundary.  Returns the new predecode queue and the rest of the
block. -/
def fillPreDecQueue (width : Nat) (pdq block : List FEInstrI) :
    List FEInstrI × List FEInstrI :=
  match block with
  | [] => (pdq, [])
  | i :: rest =>
    if pdq.length < width && !instrInstanceCrosses16ByteBoundary i then
      fillPreDecQueue width (pdq ++ [i]) rest
    else (pdq, i :: rest)

/-- `PreDecoder.cycle` (uiCA.py lines 892-927). -/
def pdCycle (cfg : PreDecoderConfig) (clock : Nat) (s : PreDecoderState) :
    PreDecoderState :=
  let s1 :=
    if s.stalled = 0 then
      let s2 :=
        if s.preDecQueue.isEmpty
            ∧ (¬s.B16BlockQueue.isEmpty ∨ s.partialInstrI.isSome)
            ∧ s.instructionQueue.length + cfg.preDecodeWidth ≤ cfg.IQWidth then
          let pdq0 := match s.partialInstrI with
                      | some i => [i]
                      | none => []
          let st0 := { s with preDecQueue := pdq0, partialInstrI := none }
          let st1 :=
            match st0.B16BlockQueue with
            | [] => st0
            | curBlock :: restBlocks =>
              let filled := fillPreDecQueue cfg.preDecodeWidth st0.preDecQueue curBlock
              let decided :=
                match filled.2 with
                | [i] =>
                  if instrInstanceCrosses16ByteBoundary i then
                    if filled.1.length < 5 ∨ 16 ≤ i.address % 16 + i.instr.posNominalOpcode
                    then (filled.1, ([] : List FEInstrI), some i)
                    else (filled.1, [i], (none : Option FEInstrI))
                  else (filled.1, [i], none)
                | blk => (filled.1, blk, none)
              let bq := if decided.2.1.isEmpty then restBlocks
                        else decided.2.1 :: restBlocks
              { st0 with preDecQueue := decided.1, B16BlockQueue := bq,
                         partialInstrI := decided.2.2 }
          { st1 with stalled := 3 * st1.preDecQueue.countP (fun i => i.instr.lcpStall) }
        else s
      if s2.stalled = 0 then
        { s2 with
          instructionQueue := s2.instructionQueue ++
            s2.preDecQueue.map (fun i => { i with predecoded := some clock })
          preDecQueue := [] }
      else s2
    else s
  { s1 with stalled := s1.stalled - 1 }

/-! ## ReorderBuffer (uiCA.py lines 932-967)

A fused uop in the reorder buffer.  `pid` is the program-order index of the
fused uop (fused uops are appended to the RB in program order; in the source
this order is given by the globally unique `Uop.idx` counter). -/

/-- The fields of an unfused `Uop` that the reorder buffer reads. -/
structure RBUop where
  executed : Option Int
  hasPossiblePorts : Bool
  eliminated : Bool
deriving DecidableEq, Repr

/-- A `FusedUop` as seen by the reorder buffer. -/
structure RBFusedUop where
  pid : Nat
  uops : List RBUop
  retired : Option Int
  retireIdx : Option Nat
deriving DecidableEq, Repr

/-- `all((u.executed is not None and u.executed < clock) for u in unfusedUops)`
(uiCA.py line 953). -/
def allExecutedBefore (clock : Int) (f : RBFusedUop) : Bool :=
  f.uops.all (fun u => match u.executed with
                       | some e => decide (e < clock)
                       | none => false)

/-- The loop of `ReorderBuffer.retireUops` (uiCA.py lines 947-960): retire
up to `fuel` fused uops from the head of the RB, stopping at the first one
that has a constituent uop not executed before the current clock.  `n` is
`nRetiredInSameCycle`.  Returns the remaining RB and the uops appended to
the retire queue, in order. -/
def retireAux : Nat → Nat → Int → List RBFusedUop →
    List RBFusedUop × List RBFusedUop
  | 0, _, _, rob => (rob, [])
  | _ + 1, _, _, [] => ([], [])
  | fuel + 1, n, clock, f :: rest =>
    if allExecutedBefore clock f then
      let f' := { f with retired := some clock, retireIdx := some n }
      let next := retireAux fuel (n + 1) clock rest
      (next.1, f' :: next.2)
    else (f :: rest, [])

/-- `ReorderBuffer.retireUops` (uiCA.py lines 947-960). -/
def retireUops (retireWidth : Nat) (clock : Int) (rob : List RBFusedUop) :
    List RBFusedUop × List RBFusedUop :=
  retireAux retireWidth 0 clock rob

/-- `ReorderBuffer.addUops` (uiCA.py lines 962-967): on append, a uop with
no possible ports or an eliminated uop is marked executed at the current
clock. -/
def rbMarkExecuted (clock : Int) (f : RBFusedUop) : RBFusedUop :=
  { f with uops := f.uops.map (fun u =>
      if !u.hasPossiblePorts || u.eliminated then { u with executed := some clock }
      else u) }

/-- The reorder-buffer state across cycles.  `retireLog` is the cumulative
list of all fused uops ever appended to `self.retireQueue` (the source
drains the retire queue every cycle; the log keeps what was appended, in
order). -/
structure RBState where
  clock : Int
  rob : List RBFusedUop
  retireLog : List RBFusedUop
deriving Repr

/-- One cycle of the reorder buffer (`ReorderBuffer.cycle`, uiCA.py lines
943-945: retire, then append the newly issued uops), followed by the global
clock increment at the end of the simulation cycle (uiCA.py line 2284). -/
def rbCycle (retireWidth : Nat) (newUops : List RBFusedUop) (s : RBState) :
    RBState :=
  let r := retireUops retireWidth s.clock s.rob
  { clock := s.clock + 1
    rob := r.1 ++ newUops.map (rbMarkExecuted s.clock)
    retireLog := s.retireLog ++ r.2 }

/-- Run the reorder buffer from empty over a finite list of per-cycle
inputs (the fused uops issued by the renamer in each cycle). -/
def rbRun (retireWidth : Nat) (inputs : List (List RBFusedUop)) : RBState :=
  inputs.foldl (fun s nu => rbCycle retireWidth nu s)
    { clock := 0, rob := [], retireLog := [] }

/-! ## The main simulation loop (uiCA.py lines 2267-2284)

Each iteration runs `frontEnd.cycle()`, drains the retire queue (updating
the local variable `rnd` to the round index of the first unfused uop of
each retired fused uop; the final value is that of the last retired uop),
checks `rnd >= 10 and clock > 500`, and otherwise increments the clock.
The iteration counter below coincides with the global clock: at the exit
check of iteration `k` the clock equals `k`.

The loop body's effect on `rnd` is abstracted by the parameter `rnds`:
`rnds k` is the list of round indices of the fused uops retired in cycle
`k`, in retire order. -/

/-- The value of the local variable `rnd` after the retire-queue drain of
cycle `k` (initial value 0, uiCA.py line 2266). -/
def rndVar (rnds : Nat → List Nat) : Nat → Nat
  | 0 => (rnds 0).getLastD 0
  | k + 1 => (rnds (k + 1)).getLastD (rndVar rnds k)

/-- The main loop (uiCA.py lines 2267-2284), with an explicit fuel bound:
`mainLoop rnds fuel k r` runs the loop starting at clock `k` with current
round variable `r`, and returns the clock value at which the loop exits
(`none` if it does not exit within `fuel` iterations).  The only exit is
the check `rnd >= 10 and clock > 500` at line 2281. -/
def mainLoop (rnds : Nat → List Nat) : Nat → Nat → Nat → Option Nat
  | 0, _, _ => none
  | fuel + 1, k, r =>
    let r' := (rnds k).getLastD r
    if 10 ≤ r' ∧ 500 < k then some k
    else mainLoop rnds fuel (k + 1) r'

/-! ## Instructions, operands and uop properties (uiCA.py lines 24-181,
1339-1488)

Operands are tagged variants; equality of register operands is by canonical
register name, of flag operands by flag-group string, and of memory and
pseudo operands by object identity, modelled by numeric ids (pseudo-operand
ids are minted from an explicit counter, mirroring Python object
creation). -/

/-- A symbolic memory address (base, index, scale, displacement); base and
index are canonical register names. -/
structure MemAddr where
  base : Option String
  index : Option String
  scale : Int
  displacement : Int
deriving DecidableEq, Repr

/-- An operand (`RegOperand`, `FlagOperand`, `MemOperand`, `PseudoOperand`;
uiCA.py lines 165-181). -/
inductive Operand where
  | reg (name : String)
  | flag (flags : String)
  | mem (id : Nat) (memAddr : MemAddr)
  | pseudo (id : Nat)
deriving DecidableEq, Repr

/-- The `memAddr` field of a memory operand.  The source accesses this only
on memory operands (anything else would raise); the default value is never
reached on the inputs built by the instruction constructor. -/
def Operand.memAddrD : Operand → MemAddr
  | .mem _ m => m
  | _ => { base := none, index := none, scale := 0, displacement := 0 }

/-- `UopProperties` (uiCA.py lines 24-39): the static template of one
unfused-domain uop.  `possiblePorts = none` is Python `None` (a uop that
uses no execution port); a port set is a list of port characters
(`list(pc)` of a port-combination string).  The back-reference to the
owning instruction is kept implicitly (each list is stored in its
instruction). -/
structure UopProperties where
  possiblePorts : Option (List Char)
  inputOperands : List Operand
  outputOperands : List Operand
  /-- `latencies[outOp] = x`. -/
  latencies : List (Operand × Int)
  divCycles : Nat := 0
  isLoadUop : Bool := false
  isStoreAddressUop : Bool := false
  memAddr : Option MemAddr := none
  isStoreDataUop : Bool := false
  isFirstUopOfInstr : Bool := false
  isLastUopOfInstr : Bool := false
  isRegMergeUop : Bool := false
deriving DecidableEq, Repr

/-- `Instr` (uiCA.py lines 105-150).  `unknown` tags instances of the
`UnknownInstr` subclass (Python `isinstance(instr, UnknownInstr)`).
`portData` maps port-combination strings to uop counts. -/
structure Instr where
  asm : String
  opcode : String
  posNominalOpcode : Nat
  instrStr : String
  portData : List (String × Nat)
  uops : Nat
  retireSlots : Nat
  uopsMITE : Nat
  uopsMS : Nat
  divCycles : Nat
  inputRegOperands : List Operand
  inputFlagOperands : List Operand
  inputMemOperands : List Operand
  outputRegOperands : List Operand
  outputFlagOperands : List Operand
  outputMemOperands : List Operand
  memAddrOperands : List Operand
  agenOperands : List Operand
  /-- `latencies[(inOp, outOp)] = l`. -/
  latencies : List ((Operand × Operand) × Int)
  TP : Option Rat
  immediate : Option Int
  lcpStall : Bool
  implicitRSPChange : Int
  mayBeEliminated : Bool
  complexDecoder : Bool
  nAvailableSimpleDecoders : Option Nat
  hasLockPrefix : Bool
  isBranchInstr : Bool
  isSerializingInstr : Bool
  isLoadSerializing : Bool
  isStoreSerializing : Bool
  macroFusibleWith : List String
  macroFusedWithPrevInstr : Bool := false
  macroFusedWithNextInstr : Bool := false
  UopPropertiesList : List UopProperties := []
  regMergeUopPropertiesList : List UopProperties := []
  isFirstInstruction : Bool := false
  unknown : Bool := false
deriving DecidableEq, Repr

/-- `UnknownInstr` (uiCA.py lines 156-162): the representation of an
instruction whose iform has no entry in the microarchitecture data table. -/
def UnknownInstr (asm opcode : String) (posNominalOpcode : Nat) : Instr :=
  { asm := asm, opcode := opcode, posNominalOpcode := posNominalOpcode
    instrStr := "", portData := [], uops := 0, retireSlots := 1, uopsMITE := 1
    uopsMS := 0, divCycles := 0
    inputRegOperands := [], inputFlagOperands := [], inputMemOperands := []
    outputRegOperands := [], outputFlagOperands := [], outputMemOperands := []
    memAddrOperands := [], agenOperands := [], latencies := [], TP := none
    immediate := some 0, lcpStall := false, implicitRSPChange := 0
    mayBeEliminated := false, complexDecoder := false
    nAvailableSimpleDecoders := none, hasLockPrefix := false
    isBranchInstr := false, isSerializingInstr := false
    isLoadSerializing := false, isStoreSerializing := false
    macroFusibleWith := [], unknown := true }

/-- The fallback of `getInstructions` (uiCA.py lines 1698-1699): when no
table entry matched the decoded instruction, an `UnknownInstr` is used and
processing continues with the next instruction. -/
def instrFromTable (tableEntry : Option Instr) (asm opcode : String)
    (posNominalOpcode : Nat) : Instr :=
  match tableEntry with
  | none => UnknownInstr asm opcode posNominalOpcode
  | some i => i

/-- The note emitted for a table line by `getUopsTableColumns` (uiCA.py
lines 1827-1832): 'X' for an unknown instruction, 'M' for an instruction
macro-fused with its predecessor, empty otherwise (the numeric columns keep
their initial value in the first two cases). -/
def tableNote (instr : Instr) : String :=
  if instr.unknown then "X"
  else if instr.macroFusedWithPrevInstr then "M"
  else ""

/-! ### computeUopProperties (uiCA.py lines 1339-1488) -/

/-- `instr.latencies.get((inOp, outOp))` (no default). -/
def lookupLat (l : List ((Operand × Operand) × Int)) (i o : Operand) :
    Option Int :=
  (l.find? (fun e => e.1.1 = i ∧ e.1.2 = o)).map (·.2)

/-- `instr.latencies.get((inOp, outOp), 1)`. -/
def latGetD (l : List ((Operand × Operand) × Int)) (i o : Operand) : Int :=
  (lookupLat l i o).getD 1

/-- Dictionary assignment `d[(i, o)] = v` on an association list (an
existing key keeps its position, as in a Python dict). -/
def setLat (l : List ((Operand × Operand) × Int)) (i o : Operand) (v : Int) :
    List ((Operand × Operand) × Int) :=
  if l.any (fun e => e.1.1 = i ∧ e.1.2 = o) then
    l.map (fun e => if e.1.1 = i ∧ e.1.2 = o then ((i, o), v) else e)
  else l ++ [((i, o), v)]

/-- The four port-combination classes of an instruction's `portData`
(uiCA.py lines 1346-1359). -/
structure PortClasses where
  loadPcs : List (List Char)
  storeAddressPcs : List (List Char)
  storeDataPcs : List (List Char)
  nonMemPcs : List (List Char)
deriving DecidableEq, Repr

/-- The classification loop `for pc, n in instr.portData.items()` (uiCA.py
lines 1350-1359): a combination containing port 7 or 8 is a store-address
class, else one containing 2 or 3 a load class, else one containing 4 or 9
a store-data class, else a non-memory class. -/
def classifyPortCombos (portData : List (String × Nat)) : PortClasses :=
  portData.foldl
    (fun acc e =>
      let ports := e.1.toList
      let n := e.2
      if ports.any (fun p => p = '7' || p = '8') then
        { acc with storeAddressPcs := acc.storeAddressPcs ++ List.replicate n ports }
      else if ports.any (fun p => p = '2' || p = '3') then
        { acc with loadPcs := acc.loadPcs ++ List.replicate n ports }
      else if ports.any (fun p => p = '4' || p = '9') then
        { acc with storeDataPcs := acc.storeDataPcs ++ List.replicate n ports }
      else
        { acc with nonMemPcs := acc.nonMemPcs ++ List.replicate n ports })
    { loadPcs := [], storeAddressPcs := [], storeDataPcs := [], nonMemPcs := [] }

/-- The loop `while len(storeDataPcs) > len(storeAddressPcs)` (uiCA.py lines
1361-1365): move the last load combination over to the store-address class,
or drop the last store-data combination.  Each iteration shrinks the
difference, so `storeDataPcs.length` iterations suffice. -/
def balanceStorePcs : Nat → PortClasses → PortClasses
  | 0, c => c
  | fuel + 1, c =>
    if c.storeAddressPcs.length < c.storeDataPcs.length then
      if c.loadPcs.isEmpty then
        balanceStorePcs fuel { c with storeDataPcs := c.storeDataPcs.dropLast }
      else
        balanceStorePcs fuel
          { c with loadPcs := c.loadPcs.dropLast
                   storeAddressPcs := c.storeAddressPcs ++ [c.loadPcs.getLastD []] }
    else c

/-- Accumulator for the load-uop loop (uiCA.py lines 1375-1387). -/
structure LoadBuild where
  props : List UopProperties
  loadPseudoOps : List Operand
  counter : Nat
deriving Repr

/-- The loop `for i, pc in enumerate(loadPcs)` (uiCA.py lines 1375-1387). -/
def buildLoadUops (instr : Instr) (hasNonMem : Bool) :
    List (List Char) → Nat → LoadBuild → LoadBuild
  | [], _, b => b
  | pc :: rest, i, b =>
    let outOps : List Operand :=
      if hasNonMem then [Operand.pseudo b.counter] else instr.outputRegOperands
    let pseudos :=
      if hasNonMem then b.loadPseudoOps ++ [Operand.pseudo b.counter]
      else b.loadPseudoOps
    let c' := if hasNonMem then b.counter + 1 else b.counter
    let memAddr :=
      if instr.inputMemOperands.isEmpty then none
      else some ((instr.inputMemOperands.getD
        (min i (instr.inputMemOperands.length - 1)) (Operand.pseudo 0)).memAddrD)
    let prop : UopProperties :=
      { possiblePorts := some pc
        inputOperands := instr.memAddrOperands
        outputOperands := outOps
        latencies := outOps.map (fun o => (o, 5))
        isLoadUop := true
        memAddr := memAddr }
    buildLoadUops instr hasNonMem rest (i + 1)
      { props := b.props ++ [prop], loadPseudoOps := pseudos, counter := c' }

/-- Accumulator for the store-uop loop (uiCA.py lines 1389-1403). -/
structure StoreBuild where
  props : List UopProperties
  storePseudoOps : List Operand
  counter : Nat
deriving Repr

/-- The loop `for i, (stAPc, stDPc) in enumerate(zip(storeAddressPcs,
storeDataPcs))` (uiCA.py lines 1389-1403): a store-address uop followed by
the paired store-data uop. -/
def buildStoreUops (instr : Instr) (hasNonMem : Bool) :
    List (List Char × List Char) → Nat → StoreBuild → StoreBuild
  | [], _, b => b
  | (stAPc, stDPc) :: rest, i, b =>
    let memAddr :=
      if instr.outputMemOperands.isEmpty then none
      else some ((instr.outputMemOperands.getD
        (min i (instr.outputMemOperands.length - 1)) (Operand.pseudo 0)).memAddrD)
    let stA : UopProperties :=
      { possiblePorts := some stAPc
        inputOperands := instr.memAddrOperands
        outputOperands := []
        latencies := []
        isStoreAddressUop := true
        memAddr := memAddr }
    let stDInputs : List Operand :=
      if hasNonMem then [Operand.pseudo b.counter]
      else instr.inputRegOperands ++ instr.inputFlagOperands
    let pseudos :=
      if hasNonMem then b.storePseudoOps ++ [Operand.pseudo b.counter]
      else b.storePseudoOps
    let c' := if hasNonMem then b.counter + 1 else b.counter
    let stD : UopProperties :=
      { possiblePorts := some stDPc
        inputOperands := stDInputs
        outputOperands := []
        latencies := []
        isStoreDataUop := true }
    buildStoreUops instr hasNonMem rest (i + 1)
      { props := b.props ++ [stA, stD], storePseudoOps := pseudos, counter := c' }

/-- The special case for three-uop shift-like instructions (uiCA.py lines
1406-1411).  `instr.latencies.get((i, o)) == k` with no default: the key
must be present with value `k`. -/
def shlSpecialCase (instr : Instr) (nonMemPcs : List (List Char)) : Bool :=
  instr.memAddrOperands.isEmpty && nonMemPcs.length = 3
    && !instr.inputRegOperands.isEmpty && !instr.outputRegOperands.isEmpty
    && !instr.inputFlagOperands.isEmpty && !instr.outputFlagOperands.isEmpty
    && instr.inputRegOperands.all (fun i => instr.outputRegOperands.all
         (fun o => lookupLat instr.latencies i o = some 1))
    && instr.inputRegOperands.all (fun i => instr.outputFlagOperands.all
         (fun o => lookupLat instr.latencies i o = some 2))
    && instr.inputFlagOperands.all (fun i => instr.outputRegOperands.all
         (fun o => lookupLat instr.latencies i o = some 0))
    && instr.inputFlagOperands.all (fun i => instr.outputFlagOperands.all
         (fun o => lookupLat instr.latencies i o = some 2))

/-- `max([max(1, instr.latencies.get((inOp, outMemOp), 1) - shift) for
outMemOp in instr.outputMemOperands] or [1])` (uiCA.py lines 1430-1431 with
`shift = 4` and lines 1439-1440 with `shift = 5`). -/
def adjStoreLat (instr : Instr) (inOp : Operand) (shift : Int) : Int :=
  match instr.outputMemOperands.map
      (fun om => max 1 (latGetD instr.latencies inOp om - shift)) with
  | [] => 1
  | v :: vs => vs.foldl max v

/-- The first `adjustedLatencies` loop (uiCA.py lines 1426-1431). -/
def buildAdjLat1 (instr : Instr) (regFlagAddrInputs regFlagOutputs
    storePseudoOps : List Operand)
    (adj0 : List ((Operand × Operand) × Int)) :
    List ((Operand × Operand) × Int) :=
  regFlagAddrInputs.foldl
    (fun adj inOp =>
      let adj1 := regFlagOutputs.foldl
        (fun a outOp => setLat a inOp outOp (latGetD instr.latencies inOp outOp)) adj
      storePseudoOps.foldl
        (fun a sp => setLat a inOp sp (adjStoreLat instr inOp 4)) adj1)
    adj0

/-- The second `adjustedLatencies` loop (uiCA.py lines 1432-1435). -/
def buildAdjLat2 (instr : Instr) (memAddrIns loadPseudoOps
    regFlagOutputs : List Operand)
    (adj0 : List ((Operand × Operand) × Int)) :
    List ((Operand × Operand) × Int) :=
  memAddrIns.foldl
    (fun adj inMemAddrOp =>
      loadPseudoOps.foldl
        (fun a lp =>
          regFlagOutputs.foldl
            (fun a2 outOp =>
              setLat a2 lp outOp (max 1 (latGetD instr.latencies inMemAddrOp outOp - 5)))
            a)
        adj)
    adj0

/-- The third `adjustedLatencies` loop (uiCA.py lines 1436-1440). -/
def buildAdjLat3 (instr : Instr) (loadPseudoOps storePseudoOps : List Operand)
    (adj0 : List ((Operand × Operand) × Int)) :
    List ((Operand × Operand) × Int) :=
  instr.inputMemOperands.foldl
    (fun adj inMemOp =>
      loadPseudoOps.foldl
        (fun a lp =>
          storePseudoOps.foldl
            (fun a2 sp => setLat a2 lp sp (adjStoreLat instr inMemOp 5))
            a)
        adj)
    adj0

/-- `latClasses.setdefault(k, []).append(op)` on an association list. -/
def addToClass (cs : List (Int × List Operand)) (k : Int) (op : Operand) :
    List (Int × List Operand) :=
  if cs.any (fun e => e.1 = k) then
    cs.map (fun e => if e.1 = k then (e.1, e.2 ++ [op]) else e)
  else cs ++ [(k, [op])]

/-- `max(set(adjustedLatencies.get((inOp, outOp), 1) for outOp in
nonMemOutputOperands) or [1])` (uiCA.py lines 1444-1445; the variable is
called `minLat` in the source but computes the maximum). -/
def classKeyOf (adj : List ((Operand × Operand) × Int))
    (outs : List Operand) (inOp : Operand) : Int :=
  match outs.map (fun o => latGetD adj inOp o) with
  | [] => 1
  | v :: vs => vs.foldl max v

/-- The `latClasses` loop (uiCA.py lines 1442-1446). -/
def buildLatClasses (adj : List ((Operand × Operand) × Int))
    (outs ins : List Operand) : List (Int × List Operand) :=
  ins.foldl (fun cs inOp => addToClass cs (classKeyOf adj outs inOp) inOp) []

/-- Insert into a sorted list of latency levels. -/
def insertSorted (x : Int) : List Int → List Int
  | [] => [x]
  | y :: ys => if x ≤ y then x :: y :: ys else y :: insertSorted x ys

/-- `sorted(latClasses.keys())`. -/
def sortInts (l : List Int) : List Int := l.foldr insertSorted []

/-- `baseUopLatencies[outOp]` (uiCA.py lines 1452-1456): the maximum
adjusted latency from the minimum-level class to `outOp`, or 1 when the
class is empty. -/
def baseLatFor (adj : List ((Operand × Operand) × Int))
    (minLatClass : List Operand) (outOp : Operand) : Int :=
  match minLatClass.map (fun i => latGetD adj i outOp) with
  | [] => 1
  | v :: vs => vs.foldl max v

/-- Accumulator for the loop over `nonMemPcs[1:]` (uiCA.py lines
1469-1478).  `front` collects the `appendleft`ed uops (newest first),
`back` the appended ones, and `baseExtraInputs` the pseudo operands
appended to the base uop's input list. -/
structure NonMemBuild where
  front : List UopProperties
  back : List UopProperties
  baseExtraInputs : List Operand
  counter : Nat
  remainingLevels : List Int
deriving Repr

/-- The loop `for i, pc in enumerate(nonMemPcs[1:])` (uiCA.py lines
1469-1478). -/
def buildNonMemExtras (latClasses : List (Int × List Operand))
    (minLatLevel : Int) (nonMemInputOperands : List Operand) :
    List (List Char) → NonMemBuild → NonMemBuild
  | [], b => b
  | pc :: rest, b =>
    match b.remainingLevels with
    | latLevel :: levels =>
      let latClass := (((latClasses.find? (fun e => e.1 = latLevel)).map (·.2)).getD [])
      let p := Operand.pseudo b.counter
      let prop : UopProperties :=
        { possiblePorts := some pc
          inputOperands := latClass
          outputOperands := [p]
          latencies := [(p, latLevel - minLatLevel)] }
      buildNonMemExtras latClasses minLatLevel nonMemInputOperands rest
        { front := prop :: b.front, back := b.back
          baseExtraInputs := b.baseExtraInputs ++ [p]
          counter := b.counter + 1, remainingLevels := levels }
    | [] =>
      let prop : UopProperties :=
        { possiblePorts := some pc
          inputOperands := nonMemInputOperands
          outputOperands := []
          latencies := [] }
      buildNonMemExtras latClasses minLatLevel nonMemInputOperands rest
        { b with back := b.back ++ [prop] }

/-- The non-memory-uop construction (uiCA.py lines 1405-1478), returning
the `nonMemUopProps` deque as a list together with the pseudo-operand
counter. -/
def buildNonMemUops (instr : Instr) (nonMemPcs : List (List Char))
    (loadPseudoOps storePseudoOps : List Operand) (c0 : Nat) :
    List UopProperties × Nat :=
  if nonMemPcs.isEmpty then ([], c0)
  else if shlSpecialCase instr nonMemPcs then
    let rP := Operand.pseudo c0
    let rOutputOperands := instr.outputRegOperands ++ [rP]
    let u1 : UopProperties :=
      { possiblePorts := some (nonMemPcs.getD 0 [])
        inputOperands := instr.inputRegOperands
        outputOperands := rOutputOperands
        latencies := rOutputOperands.map (fun o => (o, 1)) }
    let fP := Operand.pseudo (c0 + 1)
    let u2 : UopProperties :=
      { possiblePorts := some (nonMemPcs.getD 1 [])
        inputOperands := instr.inputFlagOperands
        outputOperands := [fP]
        latencies := [(fP, 1)] }
    let u3 : UopProperties :=
      { possiblePorts := some (nonMemPcs.getD 2 [])
        inputOperands := [rP, fP]
        outputOperands := instr.outputFlagOperands
        latencies := instr.outputFlagOperands.map (fun o => (o, 1)) }
    ([u1, u2, u3], c0 + 2)
  else
    let regFlagAddrInputs := instr.inputRegOperands ++ instr.inputFlagOperands
      ++ (if !instr.agenOperands.isEmpty then instr.memAddrOperands else [])
    let nonMemInputOperands := regFlagAddrInputs ++ loadPseudoOps
    let nonMemOutputOperands := instr.outputRegOperands
      ++ instr.outputFlagOperands ++ storePseudoOps
    let adj1 := buildAdjLat1 instr regFlagAddrInputs
      (instr.outputRegOperands ++ instr.outputFlagOperands) storePseudoOps []
    let adj2 := buildAdjLat2 instr
      (if instr.agenOperands.isEmpty then instr.memAddrOperands else [])
      loadPseudoOps (instr.outputRegOperands ++ instr.outputFlagOperands) adj1
    let adj := buildAdjLat3 instr loadPseudoOps storePseudoOps adj2
    let latClasses := buildLatClasses adj nonMemOutputOperands nonMemInputOperands
    let sortedLevels := sortInts (latClasses.map (·.1))
    let minLatLevel := sortedLevels.headD 1
    let remainingLevels := sortedLevels.tail
    let minLatClass := (((latClasses.find? (fun e => e.1 = minLatLevel)).map (·.2)).getD [])
    let baseUopLatencies := nonMemOutputOperands.map
      (fun o => (o, baseLatFor adj minLatClass o))
    let built := buildNonMemExtras latClasses minLatLevel nonMemInputOperands
      (nonMemPcs.drop 1)
      { front := [], back := [], baseExtraInputs := [], counter := c0
        remainingLevels := remainingLevels }
    let baseUopProp : UopProperties :=
      { possiblePorts := some (nonMemPcs.getD 0 [])
        inputOperands := minLatClass ++ built.baseExtraInputs
        outputOperands := nonMemOutputOperands
        latencies := baseUopLatencies
        divCycles := instr.divCycles }
    (built.front ++ [baseUopProp] ++ built.back, built.counter)

/-- Set `isLastUopOfInstr` on the last element (uiCA.py line 1488). -/
def markLast : List UopProperties → List UopProperties
  | [] => []
  | [u] => [{ u with isLastUopOfInstr := true }]
  | u :: v :: rest => u :: markLast (v :: rest)

/-- Set `isFirstUopOfInstr` on the first and `isLastUopOfInstr` on the last
element (uiCA.py lines 1487-1488; on a one-element list the same entry
receives both flags).  The source would raise an IndexError on an empty
list (reachable only with `retireSlots = 0` and empty port data). -/
def markFirstLast : List UopProperties → List UopProperties
  | [] => []
  | u :: rest => markLast ({ u with isFirstUopOfInstr := true } :: rest)

/-- The body of `computeUopProperties` for one instruction that is not
macro-fused with its predecessor (uiCA.py lines 1344-1488), with `c0` the
pseudo-operand counter.  Returns the new `UopPropertiesList` and the
counter. -/
def computeUopPropertiesInstr (instr : Instr) (c0 : Nat) :
    List UopProperties × Nat :=
  let pcs0 := classifyPortCombos instr.portData
  let pcs := balanceStorePcs pcs0.storeDataPcs.length pcs0
  let hasNonMem := !pcs.nonMemPcs.isEmpty
  let lb := buildLoadUops instr hasNonMem pcs.loadPcs 0
    { props := [], loadPseudoOps := [], counter := c0 }
  let sb := buildStoreUops instr hasNonMem
    (pcs.storeAddressPcs.zip pcs.storeDataPcs) 0
    { props := [], storePseudoOps := [], counter := lb.counter }
  let nm := buildNonMemUops instr pcs.nonMemPcs lb.loadPseudoOps
    sb.storePseudoOps sb.counter
  let l0 := lb.props ++ nm.1 ++ sb.props
  let padded := l0 ++ List.replicate (instr.retireSlots - l0.length)
    { possiblePorts := none, inputOperands := [], outputOperands := []
      latencies := [] }
  (markFirstLast padded, nm.2)

/-- `computeUopProperties` (uiCA.py lines 1339-1488): instructions
macro-fused with their predecessor are skipped (their `UopPropertiesList`
stays as initialized). -/
def computeUopProperties : List Instr → Nat → List Instr
  | [], _ => []
  | instr :: rest, c =>
    if instr.macroFusedWithPrevInstr then
      instr :: computeUopProperties rest c
    else
      let r := computeUopPropertiesInstr instr c
      { instr with UopPropertiesList := r.1 } :: computeUopProperties rest r.2

/-! ## MicrocodeSequencer (uiCA.py lines 796-825) -/

/-- The state of the microcode sequencer. -/
structure MSState where
  uopQueue : List FELamUop
  stalled : Nat
  postStall : Nat
deriving DecidableEq, Repr

/-- `MicrocodeSequencer.isBusy` (uiCA.py lines 824-825). -/
def msIsBusy (ms : MSState) : Bool :=
  !ms.uopQueue.isEmpty || ms.stalled ≠ 0

/-- `MicrocodeSequencer.cycle` (uiCA.py lines 802-811): while stalled emit
nothing, otherwise emit up to 4 uops; when the queue drains, enter the
post-stall. -/
def msCycle (ms : MSState) : List FELamUop × MSState :=
  if ms.stalled ≠ 0 then ([], { ms with stalled := ms.stalled - 1 })
  else if ms.uopQueue.isEmpty then ([], ms)
  else
    let uops := ms.uopQueue.take 4
    let rest := ms.uopQueue.drop 4
    (uops.map (fun u => { u with uopSource := some "MS" }),
     { ms with uopQueue := rest
               stalled := if rest.isEmpty then ms.postStall else ms.stalled })

/-- `MicrocodeSequencer.addUops` (uiCA.py lines 813-822); the uops get
source label MS.  `dsbMSStall` is the configuration's `DSB_MS_Stall`. -/
def msAddUops (ms : MSState) (uops : List FELamUop) (prevUopSource : String)
    (dsbMSStall : Nat) : MSState :=
  let q := ms.uopQueue ++ uops.map (fun u => { u with uopSource := some "MS" })
  if prevUopSource = "MITE" then
    { uopQueue := q, stalled := 1, postStall := 1 }
  else if prevUopSource = "DSB" then
    { uopQueue := q, stalled := dsbMSStall, postStall := 0 }
  else
    { ms with uopQueue := q }

/-! ## Decoder (uiCA.py lines 828-881) -/

/-- The configuration fields the legacy decoder reads. -/
structure DecoderConfig where
  nDecoders : Nat
  predecodeDecodeDelay : Nat
  macroFusibleInstrCanBeDecodedAsLastInstr : Bool
  DSB_MS_Stall : Nat
deriving Repr

/-- The result of one decoder cycle: the `(instrI, lamUop)` pairs emitted
(`none` for an instruction with no MITE uops), the remaining instruction
queue, and the updated microcode sequencer. -/
structure DecoderResult where
  uopsList : List (FEInstrI × Option FELamUop)
  instructionQueue : List FEInstrI
  ms : MSState
deriving Repr

/-- The loop of `Decoder.cycle` (uiCA.py lines 837-876).  Entries in the
instruction queue always carry the cycle in which they were predecoded (an
entry with no predecode cycle stops the decoder, where the source would
raise). -/
def decoderLoop (cfg : DecoderConfig) (clock : Nat) :
    List FEInstrI → Nat → Nat → List (FEInstrI × Option FELamUop) →
    MSState → DecoderResult
  | [], _, _, acc, ms => { uopsList := acc, instructionQueue := [], ms := ms }
  | instrI :: rest, remainingDecoderSlots, nDecodedInstrs, acc, ms =>
    if instrI.instr.macroFusedWithPrevInstr then
      decoderLoop cfg clock rest remainingDecoderSlots nDecodedInstrs acc ms
    else
      match instrI.predecoded with
      | none => { uopsList := acc, instructionQueue := instrI :: rest, ms := ms }
      | some p =>
        if clock < p + cfg.predecodeDecodeDelay then
          { uopsList := acc, instructionQueue := instrI :: rest, ms := ms }
        else if !acc.isEmpty && instrI.instr.complexDecoder then
          { uopsList := acc, instructionQueue := instrI :: rest, ms := ms }
        else if instrI.instr.macroFusible
            && !cfg.macroFusibleInstrCanBeDecodedAsLastInstr
            && (nDecodedInstrs = cfg.nDecoders - 1
                || match rest with
                   | [] => true
                   | next :: _ =>
                     match next.predecoded with
                     | none => true
                     | some q => decide (clock < q + cfg.predecodeDecodeDelay)) then
          { uopsList := acc, instructionQueue := instrI :: rest, ms := ms }
        else
          let instrI' := { instrI with removedFromIQ := some clock }
          let acc' :=
            if 0 < instrI.instr.uopsMITE then
              acc ++ (instrI.uops.take instrI.instr.uopsMITE).map
                (fun u => (instrI', some { u with uopSource := some "MITE" }))
            else
              acc ++ [(instrI', none)]
          if 0 < instrI.instr.uopsMS then
            { uopsList := acc'
              instructionQueue := rest
              ms := msAddUops ms (instrI.uops.drop instrI.instr.uopsMITE)
                "MITE" cfg.DSB_MS_Stall }
          else
            let slots' :=
              if instrI.instr.complexDecoder then
                min (remainingDecoderSlots - 1)
                  (instrI.instr.nAvailableSimpleDecoders.getD cfg.nDecoders)
              else remainingDecoderSlots - 1
            if slots' = 0 then
              { uopsList := acc', instructionQueue := rest, ms := ms }
            else if instrI.instr.isBranchInstr
                || instrI.instr.macroFusedWithNextInstr then
              { uopsList := acc', instructionQueue := rest, ms := ms }
            else
              decoderLoop cfg clock rest slots' (nDecodedInstrs + 1) acc' ms

/-- `Decoder.cycle` (uiCA.py lines 833-878). -/
def decoderCycle (cfg : DecoderConfig) (clock : Nat)
    (instructionQueue : List FEInstrI) (ms : MSState) : DecoderResult :=
  decoderLoop cfg clock instructionQueue cfg.nDecoders 0 [] ms

/-! ## DSB (uiCA.py lines 726-793) -/

/-- `DSBEntry` (uiCA.py line 726). -/
structure DSBEntry where
  instrI : FEInstrI
  uop : Option FELamUop
  msUops : List FELamUop
  requiresExtraEntry : Bool
deriving DecidableEq, Repr

/-- The configuration fields the DSB reads. -/
structure DSBConfig where
  DSBWidth : Nat
  DSBBlockSize : Nat
  DSB_MS_Stall : Nat
deriving Repr

/-- The iteration state of `DSB.cycle`.  `cur` is the local variable
`DSBBlock`; `queue` is `self.DSBBlockQueue` (when `aliased` is true, `cur`
is the same deque object as `queue.head`, and the model keeps the two in
sync). -/
structure DSBIter where
  queue : List (List (Option DSBEntry))
  cur : List (Option DSBEntry)
  aliased : Bool
  second : Bool
  retList : List (FEInstrI × Option FELamUop)
  ms : MSState
  done : Bool
deriving Repr

/-- Pop the front of the local block, updating the aliased queue head. -/
def dsbPopCur (s : DSBIter) : DSBIter :=
  let cur' := s.cur.tail
  { s with cur := cur'
           queue := if s.aliased then cur' :: s.queue.tail else s.queue }

/-- `DSBBlock.clear()`, updating the aliased queue head. -/
def dsbClearCur (s : DSBIter) : DSBIter :=
  { s with cur := []
           queue := if s.aliased then [] :: s.queue.tail else s.queue }

/-- The skip loop `while DSBBlock[0] is None` at the start of `DSB.cycle`
(uiCA.py lines 734-742), with fuel bounding the number of popped slots. -/
def dsbSkipNones (fuel : Nat) (cur : List (Option DSBEntry))
    (queueTail : List (List (Option DSBEntry))) :
    Option (List (Option DSBEntry) × List (List (Option DSBEntry))) :=
  match fuel, cur with
  | _, some e :: bs => some (some e :: bs, queueTail)
  | 0, _ => none
  | fuel + 1, none :: bs =>
    if bs.isEmpty then
      match queueTail with
      | [] => none
      | b :: rest => dsbSkipNones fuel b rest
    else dsbSkipNones fuel bs queueTail
  | fuel + 1, [] =>
    match queueTail with
    | [] => none
    | b :: rest => dsbSkipNones fuel b rest

/-- The branch `if not DSBBlock:` at the top of a `DSB.cycle` loop
iteration (uiCA.py lines 748-758): load the second block (at most once per
cycle), ending the cycle when the fall-through address does not continue in
it; with no further block, end the cycle. -/
def dsbReload (s : DSBIter) : DSBIter :=
  match s.cur with
  | [] =>
    if !s.second && !s.queue.isEmpty then
      let s1 := { s with second := true, cur := s.queue.headD [], aliased := true }
      match s1.retList.getLast?, s1.cur with
      | some prev, some firstEntry :: _ =>
        if prev.1.address + prev.1.instr.opcodeLen ≠ firstEntry.instrI.address
            && !(prev.1.instr.isBranchInstr || prev.1.instr.macroFusedWithNextInstr) then
          { s1 with done := true }
        else s1
      | _, _ => s1
    else { s with done := true }
  | _ => s

/-- The block-advance part of a `DSB.cycle` loop iteration after an entry
`e` is consumed (uiCA.py lines 763-780): pop the slot, possibly clear the
rest of the block at a branch or a 32-byte-boundary change, and drop the
block from the queue when it empties. -/
def dsbAdvanceCur (cfg : DSBConfig) (e : DSBEntry) (s : DSBIter) : DSBIter :=
  let s1 := dsbPopCur s
  let s2 :=
    if s1.cur.all (fun x => x.isNone) then
      if 1 < s1.queue.length
          && (cfg.DSBBlockSize = 64
              || match (s1.queue.tail.headD []).headD none with
                 | some nextEntry =>
                   decide (nextEntry.instrI.address / 32 ≠ e.instrI.address / 32)
                 | none => false) then
        if e.instrI.instr.isBranchInstr
            || e.instrI.instr.macroFusedWithNextInstr then
          if s1.cur.length = 5 then { s1 with cur := [none], aliased := false }
          else if s1.cur.length = 4 then dsbClearCur s1
          else s1
        else dsbClearCur s1
      else s1
    else s1
  if s2.cur.isEmpty then
    { s2 with queue := s2.queue.tail, aliased := false }
  else s2

/-- One iteration of the loop `for _ in range(0, uArchConfig.DSBWidth)` of
`DSB.cycle` (uiCA.py lines 746-791): reload if the local block is empty,
then process its first slot. -/
def dsbStep (cfg : DSBConfig) (s0 : DSBIter) : DSBIter :=
  if s0.done then s0
  else
    let s := dsbReload s0
    if s.done then s
    else
    match s.cur with
    | [] => { s with done := true }
    | entry :: _ =>
      match entry with
      | some e =>
        if e.requiresExtraEntry && s.retList.length = cfg.DSBWidth - 1 then
          { s with done := true }
        else
          let s3 := dsbAdvanceCur cfg e s
          let s4 :=
            match e.uop with
            | some u =>
              { s3 with retList := s3.retList
                  ++ [(e.instrI, some { u with uopSource := some "DSB" })] }
            | none => s3
          if !e.msUops.isEmpty then
            { s4 with ms := msAddUops s4.ms e.msUops "DSB" cfg.DSB_MS_Stall
                      done := true }
          else if e.requiresExtraEntry then
            { s4 with done := true }
          else s4
      | none =>
        let s1 := dsbPopCur s
        if s1.cur.isEmpty then
          { s1 with queue := s1.queue.tail, aliased := false }
        else s1

/-- Iterate `dsbStep` `fuel` times. -/
def dsbLoop (cfg : DSBConfig) : Nat → DSBIter → DSBIter
  | 0, s => s
  | fuel + 1, s => dsbLoop cfg fuel (dsbStep cfg s)

/-- `DSB.cycle` (uiCA.py lines 733-793).  Returns the `(instrI, lamUop)`
pairs delivered, the new block queue, and the updated microcode sequencer.
When the block queue is empty, the empty result is returned (the source
would raise; the front end only selects the DSB source with blocks
present). -/
def dsbCycle (cfg : DSBConfig) (queue : List (List (Option DSBEntry)))
    (ms : MSState) :
    List (FEInstrI × Option FELamUop) × List (List (Option DSBEntry)) × MSState :=
  match queue with
  | [] => ([], queue, ms)
  | b :: rest =>
    match dsbSkipNones (queue.foldl (fun n blk => n + blk.length) 0) b rest with
    | none => ([], [], ms)
    | some (cur, queueTail) =>
      let s0 : DSBIter :=
        { queue := cur :: queueTail, cur := cur, aliased := true
          second := false, retList := [], ms := ms, done := false }
      let s1 := dsbLoop cfg cfg.DSBWidth s0
      (s1.retList, s1.queue, s1.ms)

/-! ## FrontEnd (uiCA.py lines 447-723)

The front-end state combines the IDQ, the uop-source selector, the
microcode sequencer, the predecoder (with its 16-byte block queue and the
instruction queue), the DSB block queue, and the stack-engine offset.  The
two instruction-instance generators (`CacheBlockGenerator` and
`CacheBlocksForNextRoundGenerator`, uiCA.py lines 1782-1812) are infinite
Python generators; the embedding carries the remaining supply explicitly
(`cacheBlocks`: the upcoming 64-byte cache blocks for the unroll/simple
modes; `nextRounds`: the upcoming per-round lists of cache blocks).
`rbLen` and `rsLen` are the occupancies of the reorder buffer and the
scheduler, read by the issue gate (their own dynamics are modelled by
`rbCycle` and `dispatchUops`/`retireUops`). -/

/-- An IDQ slot: a laminated uop delivered by a uop source, or a
stack-sync uop injected by the stack engine (uiCA.py lines 717-723). -/
inductive IDQItem where
  | lam (u : FELamUop)
  | stackSync
deriving DecidableEq, Repr

/-- The configuration fields the front end reads. -/
structure FEConfig where
  IQWidth : Nat
  IDQWidth : Nat
  RBWidth : Nat
  RSWidth : Nat
  issueWidth : Nat
  DSBWidth : Nat
  DSBBlockSize : Nat
  DSB_MS_Stall : Nat
  preDecodeWidth : Nat
  nDecoders : Nat
  predecodeDecodeDelay : Nat
  macroFusibleInstrCanBeDecodedAsLastInstr : Bool
  LSDUnrollCount : Nat
  alignmentOffset : Nat
  unroll : Bool
deriving Repr

/-- The front-end state. -/
structure FEState where
  uopSource : Option String
  IDQ : List IDQItem
  rbLen : Nat
  rsLen : Nat
  ms : MSState
  pd : PreDecoderState
  dsbBlockQueue : List (List (Option DSBEntry))
  RSPOffset : Int
  addressesInDSB : List Nat
  nextRounds : List (List (List FEInstrI))
  cacheBlocks : List (List FEInstrI)
  clock : Nat
deriving Repr

/-- `split64ByteBlockTo32ByteBlocks` (uiCA.py lines 1774-1775). -/
def split64ByteBlockTo32ByteBlocks (cacheBlock : List FEInstrI) :
    List (List FEInstrI) :=
  [0, 1].map (fun b => cacheBlock.filter
    (fun ii => b * 32 ≤ ii.address % 64 ∧ ii.address % 64 < (b + 1) * 32))

/-- `split32ByteBlockTo16ByteBlocks` (uiCA.py lines 1771-1772). -/
def split32ByteBlockTo16ByteBlocks (b32 : List FEInstrI) :
    List (List FEInstrI) :=
  [0, 1].map (fun b => b32.filter
    (fun ii => b * 16 ≤ ii.address % 32 ∧ ii.address % 32 < (b + 1) * 16))

/-- `split64ByteBlockTo16ByteBlocks` (uiCA.py lines 1768-1769). -/
def split64ByteBlockTo16ByteBlocks (cacheBlock : List FEInstrI) :
    List (List FEInstrI) :=
  [0, 1, 2, 3].map (fun b => cacheBlock.filter
    (fun ii => b * 16 ≤ ii.address % 64 ∧ ii.address % 64 < (b + 1) * 16))

/-- Write an entry at index `pos` of the current (last) DSB block
(`curBlock[posInCurBlock] = ...`). -/
def setInLastBlock (blocks : List (List (Option DSBEntry))) (pos : Nat)
    (e : DSBEntry) : List (List (Option DSBEntry)) :=
  match blocks.getLast? with
  | none => blocks
  | some b => blocks.dropLast ++ [b.set pos (some e)]

/-- The loop `for i, lamUop in enumerate(instrI.uops[:instr.uopsMITE])`
(uiCA.py lines 645-650): the last MITE uop's entry carries the MS uops and
the extra-entry flag. -/
def writeMITEEntries (instrI : FEInstrI) (requiresExtraEntry : Bool)
    (msUops : List FELamUop) (uopsMITE : Nat) :
    List FELamUop → Nat → List (List (Option DSBEntry)) → Nat →
    List (List (Option DSBEntry)) × Nat
  | [], _, blocks, pos => (blocks, pos)
  | u :: us, i, blocks, pos =>
    let entry : DSBEntry :=
      if i = uopsMITE - 1 then
        { instrI := instrI, uop := some u, msUops := msUops
          requiresExtraEntry := requiresExtraEntry }
      else
        { instrI := instrI, uop := some u, msUops := [], requiresExtraEntry := false }
    writeMITEEntries instrI requiresExtraEntry msUops uopsMITE us (i + 1)
      (setInLastBlock blocks pos entry) (pos + 1)

/-- `FrontEnd.getDSBBlocks` (uiCA.py lines 622-661): allocate the cache
block's instructions into 6-slot DSB blocks. -/
def getDSBBlocksAux : List FEInstrI → List (List (Option DSBEntry)) → Nat →
    List (List (Option DSBEntry))
  | [], blocks, _ => blocks
  | instrI :: rest, blocks, pos =>
    if instrI.instr.macroFusedWithPrevInstr then
      getDSBBlocksAux rest blocks pos
    else
      let nRequiredEntries := max 1 instrI.instr.uopsMITE
      let requiresExtraEntry :=
        match instrI.instr.immediate with
        | none => false
        | some imm =>
          if !(decide (-(2 ^ 31) ≤ imm) && decide (imm < 2 ^ 31)) then true
          else if !(decide (-(2 ^ 15) ≤ imm) && decide (imm < 2 ^ 15))
              && 0 < instrI.instr.stack.memAddrOperands.length then true
          else false
      let startNew := 0 < instrI.instr.uopsMS
        ∨ 6 < pos + nRequiredEntries + (if requiresExtraEntry then 1 else 0)
      let blocks1 := if startNew then blocks ++ [List.replicate 6 none] else blocks
      let pos1 := if startNew then 0 else pos
      let written :=
        if 0 < instrI.instr.uopsMITE then
          writeMITEEntries instrI requiresExtraEntry
            (instrI.uops.drop instrI.instr.uopsMITE) instrI.instr.uopsMITE
            (instrI.uops.take instrI.instr.uopsMITE) 0 blocks1 pos1
        else if 0 < instrI.instr.uopsMS then
          (setInLastBlock blocks1 pos1
            { instrI := instrI, uop := none, msUops := instrI.uops
              requiresExtraEntry := false }, pos1)
        else
          (setInLastBlock blocks1 pos1
            { instrI := instrI, uop := none, msUops := []
              requiresExtraEntry := false }, pos1 + 1)
      let pos2 := if requiresExtraEntry then written.2 + 1 else written.2
      let pos3 := if 0 < instrI.instr.uopsMS then 6 else pos2
      getDSBBlocksAux rest written.1 pos3

/-- `FrontEnd.getDSBBlocks` entry point (initial `posInCurBlock = 6`). -/
def getDSBBlocks (cacheBlock : List FEInstrI) : List (List (Option DSBEntry)) :=
  getDSBBlocksAux cacheBlock [] 6

/-- Append one 16-byte block to the predecoder queue (uiCA.py lines
690-696): empty blocks are skipped, and a branch ending past the block
boundary appends an empty block behind it. -/
def b16Append (queue : List (List FEInstrI)) (b16 : List FEInstrI) :
    List (List FEInstrI) :=
  match b16.getLast? with
  | none => queue
  | some lastI =>
    if lastI.instr.isBranchInstr
        && decide (16 < lastI.address % 16 + lastI.instr.opcodeLen) then
      queue ++ [b16, []]
    else queue ++ [b16]

/-- `FrontEnd.addNewCacheBlock` (uiCA.py lines 664-696). -/
def addNewCacheBlock (cfg : FEConfig) (s : FEState)
    (cacheBlock : List FEInstrI) : FEState :=
  if s.uopSource = some "LSD" then
    let lsdUops := cacheBlock.foldr
      (fun ii acc => ii.uops.map
        (fun u => IDQItem.lam { u with uopSource := some "LSD" }) ++ acc) []
    { s with IDQ := s.IDQ ++ lsdUops }
  else
    let blocks :=
      if cfg.DSBBlockSize = 32 then split64ByteBlockTo32ByteBlocks cacheBlock
      else [cacheBlock]
    blocks.foldl
      (fun st block =>
        match block with
        | [] => st
        | i0 :: _ =>
          if i0.address ∈ st.addressesInDSB then
            { st with dsbBlockQueue := st.dsbBlockQueue
                ++ getDSBBlocks (block.map (fun ii => { ii with source := some "DSB" })) }
          else
            let tagged := block.map (fun ii => { ii with source := some "MITE" })
            let b16s :=
              if cfg.DSBBlockSize = 32 then split32ByteBlockTo16ByteBlocks tagged
              else split64ByteBlockTo16ByteBlocks tagged
            { st with pd := { st.pd with
                B16BlockQueue := b16s.foldl b16Append st.pd.B16BlockQueue } })
      s

/-- The fetch loop `while len(self.DSB.DSBBlockQueue) < 2 and
len(self.preDecoder.B16BlockQueue) < 4` (uiCA.py lines 539-544), bounded by
the remaining generator supply. -/
def fetchNewBlocks (cfg : FEConfig) : Nat → FEState → FEState
  | 0, s => s
  | fuel + 1, s =>
    if s.dsbBlockQueue.length < 2 ∧ s.pd.B16BlockQueue.length < 4 then
      if cfg.unroll then
        match s.cacheBlocks with
        | [] => s
        | cb :: rest =>
          fetchNewBlocks cfg fuel (addNewCacheBlock cfg { s with cacheBlocks := rest } cb)
      else
        match s.nextRounds with
        | [] => s
        | round :: rest =>
          fetchNewBlocks cfg fuel
            (round.foldl (addNewCacheBlock cfg) { s with nextRounds := rest })
    else s

/-- The append loop `for lamUop in newUops` (uiCA.py lines 571-574): run
the stack engine on the first unfused uop (possibly injecting a sync uop
into the IDQ first, uiCA.py lines 717-721), then append the laminated
uop. -/
def appendUopsToIDQ (s : FEState) (newUops : List FELamUop) : FEState :=
  newUops.foldl
    (fun st lamUop =>
      let r := addStackSyncUop lamUop.firstUopIsFirstOfInstr lamUop.stackInstr
        st.RSPOffset
      let idq1 := if r.1 then st.IDQ ++ [IDQItem.stackSync] else st.IDQ
      { st with RSPOffset := r.2, IDQ := idq1 ++ [IDQItem.lam lamUop] })
    s

/-- The loop `while len(self.IDQ) < uArchConfig.issueWidth` of the
simplified front end (uiCA.py lines 524-531): append whole cache blocks,
each laminated uop broken into single-uop laminated uops, with stack-sync
injection per laminated uop; bounded by the remaining generator supply. -/
def simpleFEFill (cfg : FEConfig) : Nat → FEState → FEState
  | 0, s => s
  | fuel + 1, s =>
    if s.IDQ.length < cfg.issueWidth then
      match s.cacheBlocks with
      | [] => s
      | cb :: rest =>
        let s1 := cb.foldl
          (fun st instrI =>
            instrI.uops.foldl
              (fun st2 lamUop =>
                let r := addStackSyncUop lamUop.firstUopIsFirstOfInstr
                  lamUop.stackInstr st2.RSPOffset
                let idq1 := if r.1 then st2.IDQ ++ [IDQItem.stackSync] else st2.IDQ
                { st2 with RSPOffset := r.2
                           IDQ := idq1 ++ List.replicate lamUop.nUnfused
                             (IDQItem.lam { lamUop with nUnfused := 1 }) })
              st)
          { s with cacheBlocks := rest }
        simpleFEFill cfg fuel s1
    else s

/-- The part of `FrontEnd.cycle` after the issue phase and the IDQ guard
(uiCA.py lines 523-574), on the state with the issued uops already dropped
from the IDQ: select the uop source and deliver uops into the IDQ.

The issue phase (lines 502-511) runs the renamer only when neither the
reorder buffer nor the scheduler is full (`isFull`: occupancy plus
`issueWidth` exceeds the width, uiCA.py lines 940-941 and 993-994); the
renamer drains laminated uops from the front of the IDQ and hands the fused
uops to the RB and the scheduler, none of which appends to the IDQ.  The
embedding keeps the drain count abstract as `renamerPops` (0 when the RB or
RS is full); the RB and scheduler cycles are modelled separately (`rbCycle`,
`dispatchUops`) and do not touch the front-end state.  The perf-event
bookkeeping of lines 513-521 records statistics only and is omitted. -/
def fePostGuard (cfg : FEConfig) (s : FEState) : FEState :=
  match s.uopSource with
    | none => simpleFEFill cfg s.cacheBlocks.length s
    | some src =>
      if src = "LSD" then
        if s.IDQ.isEmpty then
          (s.nextRounds.take cfg.LSDUnrollCount).foldl
            (fun st round => round.foldl (addNewCacheBlock cfg) st)
            { s with nextRounds := s.nextRounds.drop cfg.LSDUnrollCount }
        else s
      else
        let s1 := fetchNewBlocks cfg (s.cacheBlocks.length + s.nextRounds.length) s
        if msIsBusy s1.ms then
          let r := msCycle s1.ms
          appendUopsToIDQ { s1 with ms := r.2 } r.1
        else if src = "MITE" then
          let pd' := pdCycle { preDecodeWidth := cfg.preDecodeWidth
                               IQWidth := cfg.IQWidth } s1.clock s1.pd
          let dr := decoderCycle
            { nDecoders := cfg.nDecoders
              predecodeDecodeDelay := cfg.predecodeDecodeDelay
              macroFusibleInstrCanBeDecodedAsLastInstr :=
                cfg.macroFusibleInstrCanBeDecodedAsLastInstr
              DSB_MS_Stall := cfg.DSB_MS_Stall }
            s1.clock pd'.instructionQueue s1.ms
          let newUops := dr.uopsList.filterMap (·.2)
          let s2 := { s1 with pd := { pd' with instructionQueue := dr.instructionQueue }
                              ms := dr.ms }
          let s3 :=
            if !cfg.unroll && !dr.uopsList.isEmpty then
              match dr.uopsList.getLast? with
              | some (curInstrI, _) =>
                if curInstrI.instr.isBranchInstr
                    || curInstrI.instr.macroFusedWithNextInstr then
                  if cfg.alignmentOffset ∈ s2.addressesInDSB then
                    { s2 with uopSource := some "DSB" }
                  else s2
                else s2
              | none => s2
            else s2
          appendUopsToIDQ s3 newUops
        else
          let r := dsbCycle { DSBWidth := cfg.DSBWidth
                              DSBBlockSize := cfg.DSBBlockSize
                              DSB_MS_Stall := cfg.DSB_MS_Stall }
            s1.dsbBlockQueue s1.ms
          let newInstrIUops := r.1
          let newUops := newInstrIUops.filterMap (·.2)
          let s2 := { s1 with dsbBlockQueue := r.2.1, ms := r.2.2 }
          let s3 :=
            match newUops.getLast?, newInstrIUops.getLast? with
            | some lastU, some (curInstrI, _) =>
              if lastU.lastUopIsLastOfInstr then
                let nextAddr :=
                  if curInstrI.instr.isBranchInstr
                      || curInstrI.instr.macroFusedWithNextInstr then
                    cfg.alignmentOffset
                  else curInstrI.address + curInstrI.instr.opcodeLen
                if nextAddr ∉ s2.addressesInDSB then
                  { s2 with uopSource := some "MITE" }
                else s2
              else s2
            | _, _ => s2
          appendUopsToIDQ s3 newUops

/-- `FrontEnd.cycle` (uiCA.py lines 502-574): the issue phase and the IDQ
guard, followed by `fePostGuard`. -/
def frontEndCycle (cfg : FEConfig) (renamerPops : Nat) (s0 : FEState) : FEState :=
  let rbFull := cfg.RBWidth < s0.rbLen + cfg.issueWidth
  let rsFull := cfg.RSWidth < s0.rsLen + cfg.issueWidth
  let pops := if rbFull || rsFull then 0 else renamerPops
  let s := { s0 with IDQ := s0.IDQ.drop pops }
  if cfg.IDQWidth < s.IDQ.length + cfg.DSBWidth then s
  else fePostGuard cfg s

/-! ## Scheduler.addNewUops: reservation-station occupancy (uiCA.py lines
1156-1253)

`addNewUops` walks the unfused uops of the newly issued fused uops and adds
each one that has possible ports and is not eliminated to `self.uops` (the
reservation-station occupancy; port assignment affects only which ready
queue the uop later enters).  The occupancy effect is the count below. -/

/-- The fields of an unfused uop that decide whether `addNewUops` places it
in the reservation station (uiCA.py lines 1161-1162 and 1234). -/
structure RSAddUop where
  hasPossiblePorts : Bool
  eliminated : Bool
deriving DecidableEq, Repr

/-- The number of unfused uops `Scheduler.addNewUops` adds to `self.uops`
for a list of newly issued fused uops (each given by its unfused uops). -/
def schedAddCount (newUops : List (List RSAddUop)) : Nat :=
  newUops.foldl
    (fun n f => n + f.countP (fun u => u.hasPossiblePorts && !u.eliminated)) 0

/-! ## Spec-claimed rules (for comparison against the code)

These definitions follow the wording of the specification, not the source;
they are compared with the source-derived definitions above. -/

/-- Modelled from the claim wording (C4): a stack-sync uop is injected by
the magnitude check exactly when the offset after adding `implicitRSPChange`
exceeds 192 in magnitude (for an instruction that neither reads nor writes
RSP architecturally, so that only the magnitude rule applies). -/
def claimedStackSyncRule : Prop :=
  ∀ (instr : StackInstr) (off : Int),
    readsRSP instr = false → writesRSP instr = false →
    (addStackSyncUop true instr off).1
      = decide (192 < (off + instr.implicitRSPChange).natAbs)

/-- Modelled from the claim wording (C5): when the last remaining
instruction of the current 16-byte block crosses the 16-byte boundary, it
is held (not predecoded in this cycle) exactly when at least 5 instructions
have already been predecoded in the cycle and its nominal-opcode byte lies
in the next block; otherwise it completes in the current cycle (it enters
the instruction queue with this cycle's predecode stamp). -/
def claimedPredecoderHoldRule : Prop :=
  ∀ (cfg : PreDecoderConfig) (clock : Nat) (s : PreDecoderState)
    (pre : List FEInstrI) (lastI : FEInstrI) (rest : List (List FEInstrI)),
    s.stalled = 0 → s.preDecQueue = [] → s.partialInstrI = none →
    s.B16BlockQueue = (pre ++ [lastI]) :: rest →
    s.instructionQueue.length + cfg.preDecodeWidth ≤ cfg.IQWidth →
    (∀ i ∈ pre, instrInstanceCrosses16ByteBoundary i = false) →
    instrInstanceCrosses16ByteBoundary lastI = true →
    pre.length ≤ cfg.preDecodeWidth →
    (({ lastI with predecoded := some clock } : FEInstrI)
        ∉ (pdCycle cfg clock s).instructionQueue
      ↔ (5 ≤ pre.length ∧ 16 ≤ lastI.address % 16 + lastI.instr.posNominalOpcode))

/-! ## Concrete fixtures used by witnesses and counterexamples -/

/-- A store-buffer fingerprint for cache line 0. -/
def addrLine0 : AbstractAddress := { base := 1, index := 2, scale := 1, disp := 0 }

/-- A store-buffer fingerprint two cache lines away from `addrLine0`. -/
def addrLine2 : AbstractAddress := { base := 1, index := 2, scale := 1, disp := 128 }

/-- A concrete scheduler state: ready stores on ports 4 and 9 whose
fingerprints indicate different cache lines, the port-9 head being older. -/
def schedFixture : SchedState :=
  { allPorts := ["0", "1", "4", "9"]
    readyQueue := [("0", []),
      ("1", [{ idx := 5, divCycles := 0, sbAddr := none, actualPort := "1" }]),
      ("4", [{ idx := 10, divCycles := 0, sbAddr := some addrLine0, actualPort := "4" }]),
      ("9", [{ idx := 3, divCycles := 0, sbAddr := some addrLine2, actualPort := "9" }])]
    readyDivUops := [], divBusy := 0, uops := [], portUsage := []
    uopsDispatchedInPrevCycle := [] }

/-- A concrete renamed operand: a load uop dispatched in cycle 10 with a
matching store-buffer entry whose halves became ready in cycles 12 and 9. -/
def loadOperandFixture : RenamedOperand :=
  { nonRenamedOperand := some 7
    uop := some { dispatched := some 10, isLoadUop := true
                  latencies := [(7, 5)]
                  storeBufferEntry := some { addressReadyCycle := some 12
                                             dataReadyCycle := some 9 } }
    ready := none }

/-- The stack-engine view of a `POP R64`: the implicit RSP address operand
is an implicit stack operand, the architectural RSP write is suppressed in
the operand lists (uiCA.py lines 1558-1566), and `implicitRSPChange = 8`. -/
def popStackInstr : StackInstr :=
  { inputRegOperands := []
    memAddrOperands := [{ reg := "RSP", isImplicitStackOperand := true }]
    outputRegOperands := []
    implicitRSPChange := 8 }

/-- The stack-engine view of a `PUSH R64`: `implicitRSPChange = -8`
(uiCA.py lines 1511-1512). -/
def pushStackInstr : StackInstr :=
  { inputRegOperands := []
    memAddrOperands := [{ reg := "RSP", isImplicitStackOperand := true }]
    outputRegOperands := []
    implicitRSPChange := -8 }

/-- The front-end instruction for the `POP` fixture. -/
def popFEInstr : FEInstr :=
  { posNominalOpcode := 0, opcodeLen := 1, lcpStall := false
    macroFusedWithPrevInstr := false, macroFusedWithNextInstr := false
    macroFusible := false, complexDecoder := false
    nAvailableSimpleDecoders := none, uopsMITE := 1, uopsMS := 0
    isBranchInstr := false, immediate := none, stack := popStackInstr }

/-- The laminated uop of the `POP` fixture (a single-uop instruction). -/
def popLamUop : FELamUop :=
  { firstUopIsFirstOfInstr := true, lastUopIsLastOfInstr := true
    stackInstr := popStackInstr, nUnfused := 1 }

/-- A `POP` instruction instance at byte address `a`. -/
def popInstrI (a : Nat) : FEInstrI :=
  { address := a, instr := popFEInstr, uops := [popLamUop] }

/-- The DSB entry of a `POP` instance at address `a`. -/
def popEntry (a : Nat) : DSBEntry :=
  { instrI := popInstrI a, uop := some popLamUop, msUops := []
    requiresExtraEntry := false }

/-- A full 6-slot DSB block of `POP` instances at addresses 0-5. -/
def dsbBlockFixture1 : List (Option DSBEntry) :=
  (List.range 6).map (fun a => some (popEntry a))

/-- The following DSB block (first instruction at address 64). -/
def dsbBlockFixture2 : List (Option DSBEntry) :=
  some (popEntry 64) :: List.replicate 5 none

/-- A Skylake-like front-end configuration (uiCA's SKL values). -/
def sklFEConfig : FEConfig :=
  { IQWidth := 25, IDQWidth := 64, RBWidth := 224, RSWidth := 97
    issueWidth := 4, DSBWidth := 6, DSBBlockSize := 32, DSB_MS_Stall := 4
    preDecodeWidth := 5, nDecoders := 4, predecodeDecodeDelay := 3
    macroFusibleInstrCanBeDecodedAsLastInstr := false
    LSDUnrollCount := 1, alignmentOffset := 0, unroll := false }

/-- A front-end state with the IDQ at the front end's own fetch threshold
(58 = IDQWidth - DSBWidth entries), the reorder buffer full (so the renamer
does not run), the DSB delivering a full 6-uop block of `POP`s, and the
stack-engine offset at 192 after 24 earlier `POP`s. -/
def feOverflowState : FEState :=
  { uopSource := some "DSB"
    IDQ := List.replicate 58 (IDQItem.lam popLamUop)
    rbLen := 221, rsLen := 0
    ms := { uopQueue := [], stalled := 0, postStall := 0 }
    pd := { B16BlockQueue := [], instructionQueue := [], preDecQueue := []
            stalled := 0, partialInstrI := none }
    dsbBlockQueue := [dsbBlockFixture1, dsbBlockFixture2]
    RSPOffset := 192
    addressesInDSB := []
    nextRounds := [], cacheBlocks := []
    clock := 600 }

/-- A micro-fused store uop pair as seen by the reservation station: both
the store-address and the store-data uop have possible ports. -/
def storePairRS : List RSAddUop :=
  [{ hasPossiblePorts := true, eliminated := false },
   { hasPossiblePorts := true, eliminated := false }]

/-- A minimal instruction for the predecoder scenarios: 4 bytes long,
nominal opcode at offset 0, no LCP stall. -/
def pdCexFEInstr : FEInstr :=
  { posNominalOpcode := 0, opcodeLen := 4, lcpStall := false
    macroFusedWithPrevInstr := false, macroFusedWithNextInstr := false
    macroFusible := false, complexDecoder := false
    nAvailableSimpleDecoders := none, uopsMITE := 1, uopsMS := 0
    isBranchInstr := false, immediate := none
    stack := { inputRegOperands := [], memAddrOperands := []
               outputRegOperands := [], implicitRSPChange := 0 } }

/-- An instruction instance at byte address 14, crossing the 16-byte
boundary (14 + 4 > 16) with its nominal opcode in the current block
(14 + 0 < 16). -/
def pdCexInstrI : FEInstrI :=
  { address := 14, instr := pdCexFEInstr, uops := [] }

/-- The predecoder configuration of the counterexample (Skylake values). -/
def pdCexConfig : PreDecoderConfig :=
  { preDecodeWidth := 5, IQWidth := 25 }

/-- The predecoder state of the counterexample: the crossing instruction is
the only instruction of the only pending 16-byte block. -/
def pdCexState : PreDecoderState :=
  { B16BlockQueue := [[pdCexInstrI]], instructionQueue := []
    preDecQueue := [], stalled := 0, partialInstrI := none }

/-! ## Retirement order -/

/-- Retirement order on fused uops: strictly earlier retire cycle, or the
same retire cycle with a strictly smaller intra-cycle index (`retireIdx`).
The `getD` defaults are irrelevant on retired uops, whose fields are set. -/
def lexLT (a b : RBFusedUop) : Prop :=
  a.retired.getD 0 < b.retired.getD 0
  ∨ (a.retired.getD 0 = b.retired.getD 0
      ∧ a.retireIdx.getD 0 < b.retireIdx.getD 0)

/-- Invariant of the reorder-buffer state: program order (`pid`) is strict
along the retire log and the RB; every logged uop was retired in an earlier
cycle with its intra-cycle index recorded; the log is ordered by
`lexLT`; and every constituent uop of a logged fused uop executed strictly
before the retire cycle. -/
def RBGood (s : RBState) : Prop :=
  (((s.retireLog ++ s.rob).map (·.pid)).Pairwise (· < ·))
  ∧ (∀ u ∈ s.retireLog, ∃ r i, u.retired = some r ∧ u.retireIdx = some i
      ∧ r < s.clock)
  ∧ List.Pairwise lexLT s.retireLog
  ∧ (∀ u ∈ s.retireLog, ∀ x ∈ u.uops,
      ∃ e r, x.executed = some e ∧ u.retired = some r ∧ e < r)

/-- `RBGood` together with program order against all future inputs. -/
def RBGoodFor (s : RBState) (future : List (List RBFusedUop)) : Prop :=
  RBGood s
  ∧ (((s.retireLog ++ s.rob ++ future.flatten).map (·.pid)).Pairwise (· < ·))

/-- A fused uop for the reorder-buffer witness: one unfused uop, executed
in cycle 0. -/
def rbWitnessUop (p : Nat) : RBFusedUop :=
  { pid := p
    uops := [{ executed := some 0, hasPossiblePorts := true, eliminated := false }]
    retired := none, retireIdx := none }

/-- Witness inputs for the reorder buffer: two fused uops issued in
consecutive cycles, followed by an idle cycle. -/
def rbWitnessInputs : List (List RBFusedUop) :=
  [[rbWitnessUop 0], [rbWitnessUop 1], []]

/-! # Theorems -/

/-- C9: an instruction whose iform has no matching entry in the
microarchitecture data table is represented as an `UnknownInstr` with empty
port data, 1 retire slot, 1 MITE uop, 0 MS uops and an empty latency map;
`getInstructions` continues with this representation instead of stopping,
and the per-instruction report marks such an instruction with note 'X'. -/
theorem unknownInstr_spec (asm opcode : String) (pos : Nat) :
    (UnknownInstr asm opcode pos).portData = []
    ∧ (UnknownInstr asm opcode pos).retireSlots = 1
    ∧ (UnknownInstr asm opcode pos).uopsMITE = 1
    ∧ (UnknownInstr asm opcode pos).uopsMS = 0
    ∧ (UnknownInstr asm opcode pos).latencies = []
    ∧ instrFromTable none asm opcode pos = UnknownInstr asm opcode pos
    ∧ tableNote (UnknownInstr asm opcode pos) = "X" :=
  ⟨rfl, rfl, rfl, rfl, rfl, rfl, rfl⟩

/-- C3 counterexample: with `issueDispatchDelay = 3`, a fused uop issued in
cycle 0 and a single input becoming ready in cycle 4 = issued +
issueDispatchDelay + 1, the code applies the 1-cycle bump (ready in cycle
5), while the claimed formula (bump exactly at the dispatch-delay boundary)
gives cycle 4. -/
theorem readyForDispatch_secondCondition_counterexample :
    getReadyForDispatchCycle 0 0 3 [some 4]
        ≠ claimedReadyForDispatchCycle 0 0 3 [some 4]
      ∧ getReadyForDispatchCycle 0 0 3 [some 4] = some 5
      ∧ claimedReadyForDispatchCycle 0 0 3 [some 4] = some 4 := by
  refine ⟨by decide, by decide, by decide⟩

/-- C3 amended: for a uop all of whose renamed input operands have a known
ready cycle, `readyForDispatch` is `max(clock+1, max input ready cycle,
issued + issueDispatchDelay)`, with a 1-cycle bump (to `opReadyCycle + 1`)
applied exactly when the maximum input ready cycle equals
`issued + issueDispatchDelay` or `issued + issueDispatchDelay + 1`. -/
theorem getReadyForDispatchCycle_amended (clock issued d : Int)
    (inputs : List (Option Int)) :
    getReadyForDispatchCycle clock issued d inputs
      = amendedReadyForDispatchCycle clock issued d inputs := by
  unfold getReadyForDispatchCycle amendedReadyForDispatchCycle
  cases h : opReadyCycleOfInputs inputs with
  | none => rfl
  | some op =>
    simp only
    congr 1
    split_ifs with h1 h2 h3 <;> omega

/-- C4 counterexample: for a `PUSH`-like instruction (`implicitRSPChange =
-8`, no architectural RSP read or write), starting from offset -192 the
resulting offset is -200, whose magnitude exceeds 192, yet no stack-sync
uop is injected: the code's check `RSPOffset > 192` is one-sided. -/
theorem stackSync_negative_offset_counterexample :
    ¬ claimedStackSyncRule
      ∧ addStackSyncUop true pushStackInstr (-192) = (false, -200)
      ∧ 192 < ((-192 : Int) + pushStackInstr.implicitRSPChange).natAbs := by
  refine ⟨fun h => ?_, by decide, by decide⟩
  exact absurd (h pushStackInstr (-192) (by decide) (by decide)) (by decide)

/-- C4 amended: for every first-uop-of-instruction appended to the IDQ
whose instruction neither reads RSP through a non-implicit-stack operand
nor writes RSP, the stack engine adds `implicitRSPChange` to the offset and
injects a stack-sync uop (resetting the offset to 0) exactly when the
resulting offset exceeds +192; a negative offset of any magnitude never
triggers the injection. -/
theorem addStackSyncUop_amended (instr : StackInstr) (off : Int)
    (hread : readsRSP instr = false) (hwrite : writesRSP instr = false) :
    addStackSyncUop true instr off
      = (decide (192 < off + instr.implicitRSPChange),
         if 192 < off + instr.implicitRSPChange then 0
         else off + instr.implicitRSPChange) := by
  simp only [addStackSyncUop, hread, hwrite, Bool.and_false, if_true,
    Bool.false_or, if_false, Bool.false_and]
  split_ifs <;> simp_all

/-- Witness for the amended C4 theorem: a `POP` at offset 192 crosses the
threshold (192 + 8 = 200 > 192) and injects a sync uop, resetting the
offset. -/
theorem addStackSyncUop_amended_witness :
    readsRSP popStackInstr = false ∧ writesRSP popStackInstr = false
      ∧ addStackSyncUop true popStackInstr 192 = (true, 0) := by
  refine ⟨by decide, by decide, ?_⟩
  have h := addStackSyncUop_amended popStackInstr 192 (by decide) (by decide)
  simpa using h

/-- C2: for a renamed operand (not yet memoized) whose producing uop has
been dispatched in cycle `d`, `getReadyCycle` returns `d` plus the
per-output latency; for a load uop with a matching store-buffer entry whose
address- and data-ready cycles are both known it returns
`max(d + latency, max(addressReady, dataReady) + 4)`, which is at least
`max(addressReady, dataReady)` plus the forwarding latency 4; if either
half is unknown, the query returns `none` and the memo is not written. -/
theorem getReadyCycle_spec (ro : RenamedOperand) (u : ProducerUop) (d : Int)
    (hmemo : ro.ready = none) (huop : ro.uop = some u)
    (hdisp : u.dispatched = some d) :
    ((u.isLoadUop = false ∨ u.storeBufferEntry = none) →
      getReadyCycle ro
        = (some (d + latenciesGet u.latencies ro.nonRenamedOperand),
           { ro with ready := some (d + latenciesGet u.latencies ro.nonRenamedOperand) }))
    ∧ (∀ sb a dr, u.isLoadUop = true → u.storeBufferEntry = some sb →
        sb.addressReadyCycle = some a → sb.dataReadyCycle = some dr →
        (getReadyCycle ro).1
          = some (max (d + latenciesGet u.latencies ro.nonRenamedOperand)
                      (max a dr + 4))
        ∧ max a dr + 4
            ≤ max (d + latenciesGet u.latencies ro.nonRenamedOperand)
                  (max a dr + 4))
    ∧ (∀ sb, u.isLoadUop = true → u.storeBufferEntry = some sb →
        (sb.addressReadyCycle = none ∨ sb.dataReadyCycle = none) →
        getReadyCycle ro = (none, ro)) := by
  refine ⟨?_, ?_, ?_⟩
  · rintro (h | h)
    · simp [getReadyCycle, hmemo, huop, hdisp, h]
    · cases hL : u.isLoadUop <;> simp [getReadyCycle, hmemo, huop, hdisp, hL, h]
  · intro sb a dr hL hsb ha hdr
    refine ⟨?_, le_max_right _ _⟩
    simp [getReadyCycle, hmemo, huop, hdisp, hL, hsb, ha, hdr]
  · intro sb hL hsb hnone
    rcases hnone with h | h
    · simp [getReadyCycle, hmemo, huop, hdisp, hL, hsb, h]
    · cases ha : sb.addressReadyCycle <;>
        simp [getReadyCycle, hmemo, huop, hdisp, hL, hsb, h, ha]

/-- Witness for the C2 theorem: the concrete load operand fixture
(dispatched in cycle 10, latency 5, store halves ready in cycles 12 and 9)
gets ready cycle `max(15, 16) = 16`. -/
theorem getReadyCycle_spec_witness :
    (getReadyCycle loadOperandFixture).1 = some 16 := by
  have h := (getReadyCycle_spec loadOperandFixture _ 10 rfl rfl rfl).2.1
    _ 12 9 rfl rfl rfl rfl
  simpa using h.1

/-- Every iteration of the main loop exits only through the check
`rnd >= 10 and clock > 500`; unfolding one iteration carries the round
variable forward. -/
theorem mainLoop_sound_aux (rnds : Nat → List Nat) :
    ∀ fuel k r m, (rnds k).getLastD r = rndVar rnds k →
    mainLoop rnds fuel k r = some m →
    (10 ≤ rndVar rnds m ∧ 500 < m) ∧ k ≤ m
      ∧ ∀ j, k ≤ j → j < m → ¬(10 ≤ rndVar rnds j ∧ 500 < j) := by
  intro fuel
  induction fuel with
  | zero => intro k r m _ h; simp [mainLoop] at h
  | succ fuel ih =>
    intro k r m hr h
    rw [mainLoop] at h
    by_cases hc : 10 ≤ (rnds k).getLastD r ∧ 500 < k
    · rw [if_pos hc] at h
      cases h
      refine ⟨by rwa [hr] at hc, le_refl _, ?_⟩
      intro j h1 h2
      omega
    · rw [if_neg hc] at h
      have hr' : (rnds (k + 1)).getLastD ((rnds k).getLastD r)
          = rndVar rnds (k + 1) := by
        rw [hr]; rfl
      obtain ⟨hcm, hkm, hmin⟩ := ih (k + 1) ((rnds k).getLastD r) m hr' h
      refine ⟨hcm, by omega, ?_⟩
      intro j h1 h2
      rcases Nat.eq_or_lt_of_le h1 with rfl | h1'
      · rwa [hr] at hc
      · exact hmin j h1' h2

/-- If the exit condition holds at cycle `m` and at no earlier cycle, the
main loop reaches cycle `m` and exits there. -/
theorem mainLoop_complete_aux (rnds : Nat → List Nat) :
    ∀ d k r, (rnds k).getLastD r = rndVar rnds k →
    (10 ≤ rndVar rnds (k + d) ∧ 500 < k + d) →
    (∀ j, k ≤ j → j < k + d → ¬(10 ≤ rndVar rnds j ∧ 500 < j)) →
    mainLoop rnds (d + 1) k r = some (k + d) := by
  intro d
  induction d with
  | zero =>
    intro k r hr hc _
    rw [mainLoop, hr]
    simp only [Nat.add_zero] at hc ⊢
    rw [if_pos hc]
  | succ d ih =>
    intro k r hr hc hmin
    rw [mainLoop]
    have hck : ¬(10 ≤ (rnds k).getLastD r ∧ 500 < k) := by
      rw [hr]; exact hmin k (le_refl _) (by omega)
    rw [if_neg hck]
    have hr' : (rnds (k + 1)).getLastD ((rnds k).getLastD r)
        = rndVar rnds (k + 1) := by
      rw [hr]; rfl
    have := ih (k + 1) ((rnds k).getLastD r) hr'
      (by rw [show k + 1 + d = k + (d + 1) by omega]; exact hc)
      (by intro j h1 h2; exact hmin j (by omega) (by omega))
    rwa [show k + 1 + d = k + (d + 1) by omega] at this

/-- C8: the main simulation loop (one clock per iteration, the clock at the
exit check of iteration `k` being `k`) terminates with final clock `m` if
and only if `m` is the first cycle at whose end-of-cycle check the round
index of the most recently retired uop is at least 10 and the clock exceeds
500; the loop has no other exit. -/
theorem mainLoop_terminates_iff (rnds : Nat → List Nat) (m : Nat) :
    (∃ fuel, mainLoop rnds fuel 0 0 = some m)
      ↔ ((10 ≤ rndVar rnds m ∧ 500 < m)
          ∧ ∀ j, j < m → ¬(10 ≤ rndVar rnds j ∧ 500 < j)) := by
  constructor
  · rintro ⟨fuel, h⟩
    obtain ⟨hc, _, hmin⟩ := mainLoop_sound_aux rnds fuel 0 0 m rfl h
    exact ⟨hc, fun j hj => hmin j (Nat.zero_le _) hj⟩
  · rintro ⟨hc, hmin⟩
    refine ⟨m + 1, ?_⟩
    have := mainLoop_complete_aux rnds m 0 0 rfl
      (by simpa using hc) (by intro j _ h2; exact hmin j (by omega))
    simpa using this

theorem heapMin_eq_none : ∀ {l : List SchedUop}, heapMin l = none → l = [] := by
  intro l h
  cases l with
  | nil => rfl
  | cons u us =>
    exfalso
    rw [heapMin] at h
    revert h
    cases heapMin us with
    | none => intro h; cases h
    | some v =>
      simp only
      split
      · intro h; cases h
      · intro h; cases h

theorem heapMin_of_ne_nil {l : List SchedUop} (h : l ≠ []) :
    ∃ u, heapMin l = some u := by
  cases hm : heapMin l with
  | none => exact absurd (heapMin_eq_none hm) h
  | some u => exact ⟨u, rfl⟩

theorem lookupQueue_updateQueue_ne (qs : List (String × List SchedUop))
    (p q : String) (l : List SchedUop) (h : q ≠ p) :
    lookupQueue (updateQueue qs p l) q = lookupQueue qs q := by
  unfold lookupQueue updateQueue
  induction qs with
  | nil => rfl
  | cons e t ih =>
    simp only [List.map_cons]
    by_cases he : e.1 = p
    · rw [if_pos he]
      rw [List.find?_cons_of_neg _ (by simp [Ne.symm h]),
          List.find?_cons_of_neg _ (by simp [he, Ne.symm h])]
      exact ih
    · rw [if_neg he]
      by_cases heq : e.1 = q
      · rw [List.find?_cons_of_pos _ (by simp [heq]),
            List.find?_cons_of_pos _ (by simp [heq])]
      · rw [List.find?_cons_of_neg _ (by simp [heq]),
            List.find?_cons_of_neg _ (by simp [heq])]
        exact ih

theorem dispatchStep_acc (p : String) (st : SchedState)
    (acc : List (String × SchedUop)) :
    ∃ tail, (dispatchStep p st acc).2 = acc ++ tail ∧ ∀ e ∈ tail, e.1 = p := by
  unfold dispatchStep
  split
  · split
    · exact ⟨[], by simp, by simp⟩
    · rename_i u _
      exact ⟨[(p, u)], by simp, by simp⟩
  · split
    · exact ⟨[], by simp, by simp⟩
    · rename_i u _
      exact ⟨[(p, u)], by simp, by simp⟩

theorem dispatchStep_preserves_lookup (q : String) (st : SchedState)
    (acc : List (String × SchedUop)) (p : String) (hpq : p ≠ q) :
    lookupQueue (dispatchStep q st acc).1.readyQueue p
      = lookupQueue st.readyQueue p := by
  unfold dispatchStep
  split
  · split <;> rfl
  · split
    · rfl
    · exact lookupQueue_updateQueue_ne _ _ _ _ hpq

theorem dispatchStep_not_zero (p : String) (hp : p ≠ "0") (st : SchedState)
    (acc : List (String × SchedUop)) :
    dispatchStep p st acc
      = match heapMin (lookupQueue st.readyQueue p) with
        | none => (st, acc)
        | some u =>
          ({ st with
              readyQueue := updateQueue st.readyQueue p
                (heapPop (lookupQueue st.readyQueue p))
              divBusy := st.divBusy + u.divCycles
              uops := st.uops.eraseP (fun v => v.idx = u.idx) },
           acc ++ [(p, u)]) := by
  have hdp : (decide (p = "0")) = false := by simpa using hp
  have hdiv : dispatchUseDiv p st (lookupQueue st.readyQueue p) = false := by
    unfold dispatchUseDiv
    simp [hdp]
  unfold dispatchStep
  simp [hdiv]

theorem dispatchOnPorts_prefix :
    ∀ (ports : List String) (st : SchedState) (acc : List (String × SchedUop)),
      ∃ extra, (dispatchOnPorts ports st acc).2 = acc ++ extra
        ∧ ∀ e ∈ extra, e.1 ∈ ports := by
  intro ports
  induction ports with
  | nil =>
    intro st acc
    exact ⟨[], by simp [dispatchOnPorts], by simp⟩
  | cons p rest ih =>
    intro st acc
    obtain ⟨tail, htail, hts⟩ := dispatchStep_acc p st acc
    obtain ⟨extra, hex, hes⟩ := ih (dispatchStep p st acc).1 (dispatchStep p st acc).2
    refine ⟨tail ++ extra, ?_, ?_⟩
    · rw [show dispatchOnPorts (p :: rest) st acc
          = dispatchOnPorts rest (dispatchStep p st acc).1 (dispatchStep p st acc).2
        from rfl]
      rw [hex, htail, List.append_assoc]
    · intro e he
      rcases List.mem_append.mp he with h | h
      · exact (hts e h) ▸ List.mem_cons_self _ _
      · exact List.mem_cons_of_mem _ (hes e h)

theorem dispatchOnPorts_mem_iff :
    ∀ (ports : List String) (st : SchedState) (acc : List (String × SchedUop))
      (p : String) (u : SchedUop),
      ports.Nodup → p ∈ ports → p ≠ "0" → (∀ v, (p, v) ∉ acc) →
      ((p, u) ∈ (dispatchOnPorts ports st acc).2
        ↔ heapMin (lookupQueue st.readyQueue p) = some u) := by
  intro ports
  induction ports with
  | nil =>
    intro st acc p u _ hp
    exact absurd hp (List.not_mem_nil _)
  | cons q rest ih =>
    intro st acc p u hnd hp hp0 hacc
    rw [show dispatchOnPorts (q :: rest) st acc
        = dispatchOnPorts rest (dispatchStep q st acc).1 (dispatchStep q st acc).2
      from rfl]
    by_cases hpq : p = q
    · subst hpq
      have hstep := dispatchStep_not_zero p hp0 st acc
      have hnotrest : p ∉ rest := (List.nodup_cons.mp hnd).1
      cases hq : heapMin (lookupQueue st.readyQueue p) with
      | none =>
        have hsnd : (dispatchStep p st acc).2 = acc := by rw [hstep, hq]
        obtain ⟨extra, hex, hes⟩ := dispatchOnPorts_prefix rest
          (dispatchStep p st acc).1 (dispatchStep p st acc).2
        rw [hex, hsnd]
        constructor
        · intro hmem
          rcases List.mem_append.mp hmem with h | h
          · exact absurd h (hacc u)
          · exact absurd (hes _ h) hnotrest
        · intro h; cases h
      | some u0 =>
        have hsnd : (dispatchStep p st acc).2 = acc ++ [(p, u0)] := by
          rw [hstep, hq]
        obtain ⟨extra, hex, hes⟩ := dispatchOnPorts_prefix rest
          (dispatchStep p st acc).1 (dispatchStep p st acc).2
        rw [hex, hsnd]
        constructor
        · intro hmem
          rcases List.mem_append.mp hmem with h | h
          · rcases List.mem_append.mp h with h' | h'
            · exact absurd h' (hacc u)
            · have hu : u = u0 := by simpa using h'
              rw [hu]
          · exact absurd (hes _ h) hnotrest
        · intro h
          have hu : u0 = u := Option.some_inj.mp h
          rw [← hu]
          exact List.mem_append.mpr (Or.inl (List.mem_append.mpr (Or.inr (by simp))))
    · have hrest : p ∈ rest := (List.mem_cons.mp hp).resolve_left hpq
      have hnd' := (List.nodup_cons.mp hnd).2
      have hacc' : ∀ v, (p, v) ∉ (dispatchStep q st acc).2 := by
        obtain ⟨tail, ht, hts⟩ := dispatchStep_acc q st acc
        intro v hv
        rw [ht] at hv
        rcases List.mem_append.mp hv with h | h
        · exact hacc v h
        · exact hpq (hts _ h)
      rw [ih _ _ p u hnd' hrest hp0 hacc',
          dispatchStep_preserves_lookup q st acc p hpq]

theorem dispatchUops_snd (st : SchedState) :
    (dispatchUops st).2 = (dispatchOnPorts (applicablePortsOf st) st []).2 := rfl

theorem applicablePortsOf_of_diff (st : SchedState) (u4 u9 : SchedUop)
    (a4 a9 : AbstractAddress)
    (h4p : "4" ∈ st.allPorts) (h9p : "9" ∈ st.allPorts)
    (h4 : heapMin (lookupQueue st.readyQueue "4") = some u4)
    (h9 : heapMin (lookupQueue st.readyQueue "9") = some u9)
    (ha4 : u4.sbAddr = some a4) (ha9 : u9.sbAddr = some a9)
    (hdiff : differentCacheLine a4 a9) :
    applicablePortsOf st
      = if u4.idx ≤ u9.idx then st.allPorts.erase "9" else st.allPorts.erase "4" := by
  have hne4 : lookupQueue st.readyQueue "4" ≠ [] := by
    intro h; rw [h] at h4; cases h4
  have hne9 : lookupQueue st.readyQueue "9" ≠ [] := by
    intro h; rw [h] at h9; cases h9
  unfold applicablePortsOf
  rw [if_pos ⟨h4p, h9p, hne4, hne9⟩, h4, h9]
  simp only [ha4, ha9]
  rw [if_pos hdiff]

theorem not_differentCacheLine (a b : AbstractAddress)
    (h : ¬ differentCacheLine a b) : sameCacheLine a b := by
  unfold differentCacheLine at h
  push_neg at h
  exact ⟨h.1, h.2.1, h.2.2.1, by omega⟩

/-- C1: paired-store constraint of `Scheduler.dispatchUops`.  If the ready
heaps of ports 4 and 9 both have a head, both heads' store-buffer
fingerprints are non-null, and the fingerprints indicate different cache
lines, then only the head with the smaller global uop index can dispatch in
this cycle; consequently, whenever uops dispatch on ports 4 and 9 in the
same cycle and both carry non-null fingerprints, the fingerprints indicate
the same cache line. -/
theorem dispatch_paired_stores (st : SchedState)
    (hnd : st.allPorts.Nodup)
    (h4p : "4" ∈ st.allPorts) (h9p : "9" ∈ st.allPorts) :
    (∀ u4 u9 a4 a9,
      heapMin (lookupQueue st.readyQueue "4") = some u4 →
      heapMin (lookupQueue st.readyQueue "9") = some u9 →
      u4.sbAddr = some a4 → u9.sbAddr = some a9 →
      differentCacheLine a4 a9 →
      (u4.idx ≤ u9.idx → ∀ u, ("9", u) ∉ (dispatchUops st).2)
      ∧ (u9.idx < u4.idx → ∀ u, ("4", u) ∉ (dispatchUops st).2))
    ∧ (∀ u4 u9 a4 a9,
      ("4", u4) ∈ (dispatchUops st).2 → ("9", u9) ∈ (dispatchUops st).2 →
      u4.sbAddr = some a4 → u9.sbAddr = some a9 →
      sameCacheLine a4 a9) := by
  have hmain : ∀ u4 u9 a4 a9,
      heapMin (lookupQueue st.readyQueue "4") = some u4 →
      heapMin (lookupQueue st.readyQueue "9") = some u9 →
      u4.sbAddr = some a4 → u9.sbAddr = some a9 →
      differentCacheLine a4 a9 →
      (u4.idx ≤ u9.idx → ∀ u, ("9", u) ∉ (dispatchUops st).2)
      ∧ (u9.idx < u4.idx → ∀ u, ("4", u) ∉ (dispatchUops st).2) := by
    intro u4 u9 a4 a9 h4 h9 ha4 ha9 hdiff
    have hap := applicablePortsOf_of_diff st u4 u9 a4 a9 h4p h9p h4 h9 ha4 ha9 hdiff
    constructor
    · intro hle u hu
      rw [dispatchUops_snd] at hu
      obtain ⟨extra, hex, hes⟩ := dispatchOnPorts_prefix (applicablePortsOf st) st []
      rw [hex] at hu
      simp only [List.nil_append] at hu
      have h9a : "9" ∈ applicablePortsOf st := hes _ hu
      rw [hap, if_pos hle] at h9a
      exact (List.Nodup.not_mem_erase hnd) h9a
    · intro hlt u hu
      rw [dispatchUops_snd] at hu
      obtain ⟨extra, hex, hes⟩ := dispatchOnPorts_prefix (applicablePortsOf st) st []
      rw [hex] at hu
      simp only [List.nil_append] at hu
      have h4a : "4" ∈ applicablePortsOf st := hes _ hu
      rw [hap, if_neg (by omega)] at h4a
      exact (List.Nodup.not_mem_erase hnd) h4a
  refine ⟨hmain, ?_⟩
  intro u4 u9 a4 a9 h4d h9d ha4 ha9
  have hshape : applicablePortsOf st = st.allPorts
      ∨ applicablePortsOf st = st.allPorts.erase "9"
      ∨ applicablePortsOf st = st.allPorts.erase "4" := by
    unfold applicablePortsOf
    repeat' split
    all_goals first
      | exact Or.inl rfl
      | exact Or.inr (Or.inl rfl)
      | exact Or.inr (Or.inr rfl)
  have hndA : (applicablePortsOf st).Nodup := by
    rcases hshape with h | h | h <;> rw [h]
    · exact hnd
    · exact hnd.erase _
    · exact hnd.erase _
  have hmem4 : "4" ∈ applicablePortsOf st := by
    rw [dispatchUops_snd] at h4d
    obtain ⟨extra, hex, hes⟩ := dispatchOnPorts_prefix (applicablePortsOf st) st []
    rw [hex] at h4d
    simp only [List.nil_append] at h4d
    exact hes _ h4d
  have hmem9 : "9" ∈ applicablePortsOf st := by
    rw [dispatchUops_snd] at h9d
    obtain ⟨extra, hex, hes⟩ := dispatchOnPorts_prefix (applicablePortsOf st) st []
    rw [hex] at h9d
    simp only [List.nil_append] at h9d
    exact hes _ h9d
  have hhead4 : heapMin (lookupQueue st.readyQueue "4") = some u4 := by
    rw [dispatchUops_snd] at h4d
    exact (dispatchOnPorts_mem_iff (applicablePortsOf st) st [] "4" u4 hndA hmem4
      (by decide) (by simp)).mp h4d
  have hhead9 : heapMin (lookupQueue st.readyQueue "9") = some u9 := by
    rw [dispatchUops_snd] at h9d
    exact (dispatchOnPorts_mem_iff (applicablePortsOf st) st [] "9" u9 hndA hmem9
      (by decide) (by simp)).mp h9d
  by_cases hdiff : differentCacheLine a4 a9
  · exfalso
    obtain ⟨hA, hB⟩ := hmain u4 u9 a4 a9 hhead4 hhead9 ha4 ha9 hdiff
    by_cases hle : u4.idx ≤ u9.idx
    · exact hA hle u9 h9d
    · exact hB (by omega) u4 h4d
  · exact not_differentCacheLine a4 a9 hdiff

/-- Witness for the C1 theorem: in the concrete fixture the port-9 head
(index 3) is older than the port-4 head (index 10) and their fingerprints
differ by two cache lines, so nothing dispatches on port 4. -/
theorem dispatch_paired_stores_witness :
    ("4", (⟨10, 0, some addrLine0, "4"⟩ : SchedUop))
      ∉ (dispatchUops schedFixture).2 := by
  have h := (dispatch_paired_stores schedFixture (by decide) (by decide)
    (by decide)).1
    { idx := 10, divCycles := 0, sbAddr := some addrLine0, actualPort := "4" }
    { idx := 3, divCycles := 0, sbAddr := some addrLine2, actualPort := "9" }
    addrLine0 addrLine2 (by decide) (by decide) rfl rfl
    (by decide)
  exact h.2 (by decide) _

theorem fillPreDecQueue_spec (width : Nat) :
    ∀ (pre pdq : List FEInstrI) (lastI : FEInstrI),
      (∀ i ∈ pre, instrInstanceCrosses16ByteBoundary i = false) →
      pdq.length + pre.length ≤ width →
      instrInstanceCrosses16ByteBoundary lastI = true →
      fillPreDecQueue width pdq (pre ++ [lastI]) = (pdq ++ pre, [lastI]) := by
  intro pre
  induction pre with
  | nil =>
    intro pdq lastI _ _ hcross
    rw [List.nil_append, fillPreDecQueue, hcross]
    simp
  | cons i pre' ih =>
    intro pdq lastI hpre hlen hcross
    rw [List.cons_append, fillPreDecQueue]
    have hc : instrInstanceCrosses16ByteBoundary i = false := hpre i (by simp)
    have hlt : pdq.length < width := by
      simp only [List.length_cons] at hlen
      omega
    rw [hc]
    simp only [Bool.not_false, Bool.and_true, if_pos (decide_eq_true hlt)]
    have hlen2 : (pdq ++ [i]).length + pre'.length ≤ width := by
      simp only [List.length_append, List.length_singleton]
      simp only [List.length_cons] at hlen
      omega
    have := ih (pdq ++ [i]) lastI (fun j hj => hpre j (by simp [hj]))
      hlen2 hcross
    rw [this, List.append_assoc]
    rfl

/-- C5 amended: when the last remaining instruction of the current 16-byte
block crosses the 16-byte boundary, it is never predecoded in the current
cycle.  It is moved to the partial-instruction slot (starting its predecode,
to be completed in the next cycle) exactly when fewer than 5 instructions
have been predecoded in this cycle or its nominal-opcode byte lies in the
next block; otherwise (at least 5 predecoded and the nominal opcode within
the current block) it stays in its block.  The instructions predecoded this
cycle are exactly the non-crossing prefix (or none, while an LCP stall is
pending); a held partial instruction is predecoded in the following
cycle. -/
theorem predecoder_boundary_crossing (cfg : PreDecoderConfig) (clock : Nat)
    (iq pre : List FEInstrI) (lastI : FEInstrI) (rest : List (List FEInstrI))
    (hroom : iq.length + cfg.preDecodeWidth ≤ cfg.IQWidth)
    (hpre : ∀ i ∈ pre, instrInstanceCrosses16ByteBoundary i = false)
    (hcross : instrInstanceCrosses16ByteBoundary lastI = true)
    (hlen : pre.length ≤ cfg.preDecodeWidth) :
    ((pdCycle cfg clock
        { B16BlockQueue := (pre ++ [lastI]) :: rest, instructionQueue := iq
          preDecQueue := [], stalled := 0, partialInstrI := none }).partialInstrI
        = some lastI
      ↔ (pre.length < 5 ∨ 16 ≤ lastI.address % 16 + lastI.instr.posNominalOpcode))
    ∧ ((pdCycle cfg clock
        { B16BlockQueue := (pre ++ [lastI]) :: rest, instructionQueue := iq
          preDecQueue := [], stalled := 0, partialInstrI := none }).instructionQueue
          = iq
        ∨ (pdCycle cfg clock
            { B16BlockQueue := (pre ++ [lastI]) :: rest, instructionQueue := iq
              preDecQueue := [], stalled := 0, partialInstrI := none }).instructionQueue
          = iq ++ pre.map (fun i => { i with predecoded := some clock }))
    ∧ ((pdCycle cfg clock
        { B16BlockQueue := (pre ++ [lastI]) :: rest, instructionQueue := iq
          preDecQueue := [], stalled := 0, partialInstrI := none }).partialInstrI
          = none →
        (pdCycle cfg clock
          { B16BlockQueue := (pre ++ [lastI]) :: rest, instructionQueue := iq
            preDecQueue := [], stalled := 0, partialInstrI := none }).B16BlockQueue
          = [lastI] :: rest)
    ∧ (∀ (c' : Nat) (iq' : List FEInstrI),
        iq'.length + cfg.preDecodeWidth ≤ cfg.IQWidth →
        lastI.instr.lcpStall = false →
        (pdCycle cfg c'
          { B16BlockQueue := [], instructionQueue := iq'
            preDecQueue := [], stalled := 0
            partialInstrI := some lastI }).instructionQueue
          = iq' ++ [{ lastI with predecoded := some c' }]) := by
  have hfill := fillPreDecQueue_spec cfg.preDecodeWidth pre [] lastI hpre
    (by simpa using hlen) hcross
  by_cases hdec : pre.length < 5 ∨ 16 ≤ lastI.address % 16 + lastI.instr.posNominalOpcode
  · refine ⟨?_, ?_, ?_, ?_⟩
    · simp [pdCycle, hroom, hfill, hcross, hdec, apply_ite PreDecoderState.partialInstrI]
    · by_cases hlcp : pre.countP (fun i => i.instr.lcpStall) = 0
      · right
        simp [pdCycle, hroom, hfill, hcross, hdec, hlcp]
      · left
        simp [pdCycle, hroom, hfill, hcross, hdec, hlcp]
    · intro h
      rw [show (pdCycle cfg clock
          { B16BlockQueue := (pre ++ [lastI]) :: rest, instructionQueue := iq
            preDecQueue := [], stalled := 0, partialInstrI := none }).partialInstrI
          = some lastI from by
        simp [pdCycle, hroom, hfill, hcross, hdec,
          apply_ite PreDecoderState.partialInstrI]] at h
      cases h
    · intro c' iq' hroom' hlcpL
      simp [pdCycle, hroom', hlcpL]
  · refine ⟨?_, ?_, ?_, ?_⟩
    · simp [pdCycle, hroom, hfill, hcross, hdec, apply_ite PreDecoderState.partialInstrI]
    · by_cases hlcp : pre.countP (fun i => i.instr.lcpStall) = 0
      · right
        simp [pdCycle, hroom, hfill, hcross, hdec, hlcp]
      · left
        simp [pdCycle, hroom, hfill, hcross, hdec, hlcp]
    · intro _
      simp [pdCycle, hroom, hfill, hcross, hdec, apply_ite PreDecoderState.B16BlockQueue]
    · intro c' iq' hroom' hlcpL
      simp [pdCycle, hroom', hlcpL]

/-- C5 counterexample: an instruction at address 14 of length 4 crosses the
16-byte boundary with its nominal opcode in the current block; no
instructions were predecoded before it in the cycle (0 < 5), so by the
claimed rule it should complete in the current cycle, but the code moves it
to the partial-instruction slot and predecodes nothing. -/
theorem predecoder_hold_counterexample : ¬ claimedPredecoderHoldRule := by
  intro h
  have hinst := h pdCexConfig 0 pdCexState [] pdCexInstrI [] rfl rfl rfl rfl
    (by decide) (by intro i hi; cases hi) (by decide) (by decide)
  have hIQ : (pdCycle pdCexConfig 0 pdCexState).instructionQueue = [] := by rfl
  have hmem : ({ pdCexInstrI with predecoded := some 0 } : FEInstrI)
      ∉ (pdCycle pdCexConfig 0 pdCexState).instructionQueue := by
    rw [hIQ]
    exact List.not_mem_nil _
  have hcond := hinst.mp hmem
  exact absurd hcond.1 (by decide)

/-- Witness for the amended C5 theorem: the concrete crossing instruction
with nothing predecoded before it is moved to the partial slot. -/
theorem predecoder_boundary_crossing_witness :
    (pdCycle pdCexConfig 0 pdCexState).partialInstrI = some pdCexInstrI := by
  exact (predecoder_boundary_crossing pdCexConfig 0 [] [] pdCexInstrI []
    (by decide) (by intro i hi; cases hi) (by decide) (by decide)).1.mpr
    (Or.inl (by decide))

theorem allExecutedBefore_iff (c : Int) (f : RBFusedUop) :
    allExecutedBefore c f = true
      ↔ ∀ x ∈ f.uops, ∃ e, x.executed = some e ∧ e < c := by
  unfold allExecutedBefore
  rw [List.all_eq_true]
  constructor
  · intro h x hx
    have := h x hx
    revert this
    cases hex : x.executed with
    | none => intro h'; cases h'
    | some e => intro h'; exact ⟨e, rfl, by simpa using h'⟩
  · intro h x hx
    obtain ⟨e, hex, hlt⟩ := h x hx
    rw [hex]
    simpa using hlt

theorem retireAux_spec (clock : Int) :
    ∀ (fuel n : Nat) (rob : List RBFusedUop),
      ((retireAux fuel n clock rob).2.map (·.pid))
          ++ ((retireAux fuel n clock rob).1.map (·.pid)) = rob.map (·.pid)
      ∧ (retireAux fuel n clock rob).2.length ≤ fuel
      ∧ (∀ u ∈ (retireAux fuel n clock rob).2,
          u.retired = some clock
          ∧ (∃ i, u.retireIdx = some i ∧ n ≤ i)
          ∧ allExecutedBefore clock u = true)
      ∧ List.Pairwise (fun a b => a.retireIdx.getD 0 < b.retireIdx.getD 0)
          (retireAux fuel n clock rob).2 := by
  intro fuel
  induction fuel with
  | zero =>
    intro n rob
    refine ⟨by simp [retireAux], by simp [retireAux], ?_, by simp [retireAux]⟩
    intro u hu
    simp [retireAux] at hu
  | succ fuel ih =>
    intro n rob
    cases rob with
    | nil =>
      refine ⟨by simp [retireAux], by simp [retireAux], ?_, by simp [retireAux]⟩
      intro u hu
      simp [retireAux] at hu
    | cons f rest =>
      rw [retireAux]
      by_cases hex : allExecutedBefore clock f = true
      · rw [if_pos hex]
        obtain ⟨ihpid, ihlen, ihmem, ihpw⟩ := ih (n + 1) rest
        simp only
        refine ⟨?_, ?_, ?_, ?_⟩
        · simp only [List.map_cons, List.cons_append, ihpid, List.map_cons]
        · simpa using ihlen
        · intro u hu
          rcases List.mem_cons.mp hu with rfl | hu'
          · refine ⟨rfl, ⟨n, rfl, le_refl _⟩, ?_⟩
            rw [allExecutedBefore_iff] at hex ⊢
            exact hex
          · obtain ⟨h1, ⟨i, h2, h3⟩, h4⟩ := ihmem u hu'
            exact ⟨h1, ⟨i, h2, by omega⟩, h4⟩
        · rw [List.pairwise_cons]
          refine ⟨?_, ihpw⟩
          intro b hb
          obtain ⟨_, ⟨i, h2, h3⟩, _⟩ := ihmem b hb
          simp only [Option.getD_some, h2]
          omega
      · rw [if_neg hex]
        refine ⟨by simp, by simp, ?_, by simp⟩
        intro u hu
        simp at hu

theorem pairwise_pid_lex :
    ∀ (l : List RBFusedUop),
      ((l.map (·.pid)).Pairwise (· < ·)) → l.Pairwise lexLT →
      ∀ u1 ∈ l, ∀ u2 ∈ l, u1.pid < u2.pid → lexLT u1 u2 := by
  intro l
  induction l with
  | nil =>
    intro _ _ u1 h1
    cases h1
  | cons a t ih =>
    intro hpid hlex u1 h1 u2 h2 hlt
    rw [List.map_cons, List.pairwise_cons] at hpid
    rw [List.pairwise_cons] at hlex
    rcases List.mem_cons.mp h1 with rfl | h1'
    · rcases List.mem_cons.mp h2 with rfl | h2'
      · exact absurd hlt (lt_irrefl _)
      · exact hlex.1 u2 h2'
    · rcases List.mem_cons.mp h2 with rfl | h2'
      · have := hpid.1 u1.pid (List.mem_map_of_mem _ h1')
        omega
      · exact ih hpid.2 hlex.2 u1 h1' u2 h2' hlt

theorem rbCycle_good (w : Nat) (nu : List RBFusedUop) (s : RBState)
    (rest : List (List RBFusedUop))
    (hg : RBGoodFor s (nu :: rest)) :
    RBGoodFor (rbCycle w nu s) rest := by
  obtain ⟨⟨hpid, hlog, hlex, hexec⟩, hfut⟩ := hg
  obtain ⟨rpid, _, rmem, rpw⟩ := retireAux_spec s.clock w 0 s.rob
  have hmark : ((nu.map (rbMarkExecuted s.clock)).map (·.pid)) = nu.map (·.pid) := by
    rw [List.map_map]
    rfl
  have hlist : (((rbCycle w nu s).retireLog ++ (rbCycle w nu s).rob).map (·.pid))
        ++ (rest.flatten.map (·.pid))
      = ((s.retireLog ++ s.rob ++ (nu :: rest).flatten).map (·.pid)) := by
    simp only [rbCycle, List.flatten, List.map_append, hmark]
    rw [← rpid]
    simp [retireUops, List.append_assoc]
  have hnewlog : ∀ u ∈ (rbCycle w nu s).retireLog,
      u ∈ s.retireLog ∨ u ∈ (retireUops w s.clock s.rob).2 := by
    intro u hu
    simp only [rbCycle] at hu
    exact List.mem_append.mp hu
  refine ⟨⟨?_, ?_, ?_, ?_⟩, ?_⟩
  · have h1 : ((((rbCycle w nu s).retireLog ++ (rbCycle w nu s).rob).map (·.pid))
        ++ (rest.flatten.map (·.pid))).Pairwise (· < ·) := by
      rw [hlist]
      simpa [List.map_append] using hfut
    exact (List.pairwise_append.mp h1).1
  · intro u hu
    rcases hnewlog u hu with h | h
    · obtain ⟨r, i, h1, h2, h3⟩ := hlog u h
      exact ⟨r, i, h1, h2, by simp only [rbCycle]; omega⟩
    · obtain ⟨h1, ⟨i, h2, _⟩, _⟩ := rmem u h
      exact ⟨s.clock, i, h1, h2, by simp only [rbCycle]; omega⟩
  · simp only [rbCycle]
    rw [List.pairwise_append]
    refine ⟨hlex, ?_, ?_⟩
    · -- new retirees are ordered by retireIdx at equal retire cycle
      have : ∀ a ∈ (retireUops w s.clock s.rob).2,
          ∀ b ∈ (retireUops w s.clock s.rob).2,
          a.retireIdx.getD 0 < b.retireIdx.getD 0 → lexLT a b := by
        intro a ha b hb hab
        obtain ⟨ha1, _, _⟩ := rmem a ha
        obtain ⟨hb1, _, _⟩ := rmem b hb
        right
        rw [ha1, hb1]
        exact ⟨rfl, hab⟩
      exact List.Pairwise.imp_of_mem (fun ha hb h => this _ ha _ hb h) rpw
    · intro a ha b hb
      obtain ⟨r, i, h1, _, h3⟩ := hlog a ha
      obtain ⟨hb1, _, _⟩ := rmem b hb
      left
      rw [h1, hb1]
      simpa using h3
  · intro u hu
    rcases hnewlog u hu with h | h
    · exact hexec u h
    · obtain ⟨h1, _, h4⟩ := rmem u h
      rw [allExecutedBefore_iff] at h4
      intro x hx
      obtain ⟨e, he, hlt⟩ := h4 x hx
      exact ⟨e, s.clock, he, h1, hlt⟩
  · have h1 : ((((rbCycle w nu s).retireLog ++ (rbCycle w nu s).rob).map (·.pid))
        ++ (rest.flatten.map (·.pid))).Pairwise (· < ·) := by
      rw [hlist]
      simpa [List.map_append] using hfut
    simpa [List.map_append] using h1

theorem rbRun_good_aux (w : Nat) :
    ∀ (inputs : List (List RBFusedUop)) (s : RBState),
      RBGoodFor s inputs →
      RBGood (inputs.foldl (fun t nu => rbCycle w nu t) s) := by
  intro inputs
  induction inputs with
  | nil => intro s hs; exact hs.1
  | cons nu rest ih =>
    intro s hs
    exact ih (rbCycle w nu s) (rbCycle_good w nu s rest hs)

theorem rbRun_good (w : Nat) (inputs : List (List RBFusedUop))
    (h : ((inputs.flatten).map (·.pid)).Pairwise (· < ·)) :
    RBGood (rbRun w inputs) := by
  apply rbRun_good_aux w inputs
  constructor
  · refine ⟨by simp, ?_, by simp, ?_⟩
    · intro u hu; simp at hu
    · intro u hu; simp at hu
  · simpa using h

theorem rbCycle_log_le (w : Nat) (nu : List RBFusedUop) (s : RBState) :
    (rbCycle w nu s).retireLog.length ≤ s.retireLog.length + w := by
  have hlen := (retireAux_spec s.clock w 0 s.rob).2.1
  simp only [rbCycle, List.length_append, retireUops]
  omega

theorem rbRun_take_succ (w : Nat) (inputs : List (List RBFusedUop)) (k : Nat) :
    (rbRun w (inputs.take (k + 1))).retireLog.length
      ≤ (rbRun w (inputs.take k)).retireLog.length + w := by
  rw [List.take_succ]
  cases hk : inputs[k]? with
  | none => simp [rbRun, hk]
  | some nu =>
    simp only [Option.toList]
    unfold rbRun
    rw [List.foldl_append]
    simp only [List.foldl_cons, List.foldl_nil]
    exact rbCycle_log_le w nu _

/-- C7: over any finite run of the reorder buffer fed fused uops in program
order, retirement is monotone in program order (earlier program order means
an earlier retire cycle, or the same cycle with a smaller `retireIdx`); a
fused uop retires only when every constituent unfused uop has executed
strictly before the retire cycle; and at most `retireWidth` fused uops
retire per cycle. -/
theorem reorderBuffer_retirement (w : Nat) (inputs : List (List RBFusedUop))
    (hpid : ((inputs.flatten).map (·.pid)).Pairwise (· < ·)) :
    (∀ u1 ∈ (rbRun w inputs).retireLog, ∀ u2 ∈ (rbRun w inputs).retireLog,
      u1.pid < u2.pid →
      ∃ r1 r2, u1.retired = some r1 ∧ u2.retired = some r2
        ∧ (r1 < r2 ∨ (r1 = r2
            ∧ ∃ i1 i2, u1.retireIdx = some i1 ∧ u2.retireIdx = some i2
                ∧ i1 < i2)))
    ∧ (∀ u ∈ (rbRun w inputs).retireLog, ∀ x ∈ u.uops,
        ∃ e r, x.executed = some e ∧ u.retired = some r ∧ e < r)
    ∧ (∀ k, (rbRun w (inputs.take (k + 1))).retireLog.length
        ≤ (rbRun w (inputs.take k)).retireLog.length + w) := by
  obtain ⟨hpw, hlog, hlex, hexec⟩ := rbRun_good w inputs hpid
  refine ⟨?_, hexec, fun k => rbRun_take_succ w inputs k⟩
  intro u1 h1 u2 h2 hlt
  have hpwlog : (((rbRun w inputs).retireLog.map (·.pid)).Pairwise (· < ·)) := by
    rw [List.map_append] at hpw
    exact (List.pairwise_append.mp hpw).1
  have hl := pairwise_pid_lex _ hpwlog hlex u1 h1 u2 h2 hlt
  obtain ⟨r1, i1, hr1, hi1, _⟩ := hlog u1 h1
  obtain ⟨r2, i2, hr2, hi2, _⟩ := hlog u2 h2
  refine ⟨r1, r2, hr1, hr2, ?_⟩
  rcases hl with h | ⟨h1', h2'⟩
  · left
    rw [hr1, hr2] at h
    simpa using h
  · right
    rw [hr1, hr2] at h1'
    rw [hi1, hi2] at h2'
    exact ⟨by simpa using h1', i1, i2, hi1, hi2, by simpa using h2'⟩

/-- Witness for the C7 theorem: two single-uop fused uops issued in
consecutive cycles, both executed in cycle 0, retire in program order. -/
theorem reorderBuffer_retirement_witness :
    ((rbWitnessInputs.flatten).map (·.pid)).Pairwise (· < ·)
      ∧ (∀ u1 ∈ (rbRun 4 rbWitnessInputs).retireLog,
          ∀ u2 ∈ (rbRun 4 rbWitnessInputs).retireLog,
          u1.pid < u2.pid →
          ∃ r1 r2, u1.retired = some r1 ∧ u2.retired = some r2
            ∧ (r1 < r2 ∨ (r1 = r2
                ∧ ∃ i1 i2, u1.retireIdx = some i1 ∧ u2.retireIdx = some i2
                    ∧ i1 < i2))) :=
  ⟨by decide, (reorderBuffer_retirement 4 rbWitnessInputs (by decide)).1⟩

theorem buildLoadUops_flags (instr : Instr) (hnm : Bool) :
    ∀ (pcs : List (List Char)) (i : Nat) (b : LoadBuild),
      (∀ u ∈ b.props, u.isFirstUopOfInstr = false ∧ u.isLastUopOfInstr = false) →
      ∀ u ∈ (buildLoadUops instr hnm pcs i b).props,
        u.isFirstUopOfInstr = false ∧ u.isLastUopOfInstr = false := by
  intro pcs
  induction pcs with
  | nil => intro i b hb; exact hb
  | cons pc rest ih =>
    intro i b hb
    rw [buildLoadUops]
    apply ih
    intro u hu
    simp only [List.mem_append, List.mem_singleton] at hu
    rcases hu with h | h
    · exact hb u h
    · rw [h]
      exact ⟨rfl, rfl⟩

theorem buildStoreUops_flags (instr : Instr) (hnm : Bool) :
    ∀ (pcs : List (List Char × List Char)) (i : Nat) (b : StoreBuild),
      (∀ u ∈ b.props, u.isFirstUopOfInstr = false ∧ u.isLastUopOfInstr = false) →
      ∀ u ∈ (buildStoreUops instr hnm pcs i b).props,
        u.isFirstUopOfInstr = false ∧ u.isLastUopOfInstr = false := by
  intro pcs
  induction pcs with
  | nil => intro i b hb; exact hb
  | cons pc rest ih =>
    obtain ⟨stAPc, stDPc⟩ := pc
    intro i b hb
    rw [buildStoreUops]
    apply ih
    intro u hu
    simp only [List.mem_append, List.mem_cons, List.mem_singleton] at hu
    rcases hu with h | h | h | h
    · exact hb u h
    · rw [h]; exact ⟨rfl, rfl⟩
    · rw [h]; exact ⟨rfl, rfl⟩
    · cases h

theorem buildNonMemExtras_flags (latClasses : List (Int × List Operand))
    (minLatLevel : Int) (nonMemInputOperands : List Operand) :
    ∀ (pcs : List (List Char)) (b : NonMemBuild),
      (∀ u ∈ b.front, u.isFirstUopOfInstr = false ∧ u.isLastUopOfInstr = false) →
      (∀ u ∈ b.back, u.isFirstUopOfInstr = false ∧ u.isLastUopOfInstr = false) →
      (∀ u ∈ (buildNonMemExtras latClasses minLatLevel nonMemInputOperands pcs b).front,
        u.isFirstUopOfInstr = false ∧ u.isLastUopOfInstr = false)
      ∧ (∀ u ∈ (buildNonMemExtras latClasses minLatLevel nonMemInputOperands pcs b).back,
        u.isFirstUopOfInstr = false ∧ u.isLastUopOfInstr = false) := by
  intro pcs
  induction pcs with
  | nil => intro b hf hb; exact ⟨hf, hb⟩
  | cons pc rest ih =>
    intro b hf hb
    rw [buildNonMemExtras]
    cases hrem : b.remainingLevels with
    | cons latLevel levels =>
      apply ih
      · intro u hu
        rcases List.mem_cons.mp hu with rfl | h
        · exact ⟨rfl, rfl⟩
        · exact hf u h
      · exact hb
    | nil =>
      apply ih
      · exact hf
      · intro u hu
        simp only [List.mem_append, List.mem_singleton] at hu
        rcases hu with h | h
        · exact hb u h
        · rw [h]; exact ⟨rfl, rfl⟩

theorem buildNonMemUops_flags (instr : Instr) (nonMemPcs : List (List Char))
    (loadPseudoOps storePseudoOps : List Operand) (c0 : Nat) :
    ∀ u ∈ (buildNonMemUops instr nonMemPcs loadPseudoOps storePseudoOps c0).1,
      u.isFirstUopOfInstr = false ∧ u.isLastUopOfInstr = false := by
  intro u hu
  rw [buildNonMemUops] at hu
  split at hu
  · simp at hu
  · split at hu
    · simp only [List.mem_cons, List.mem_singleton] at hu
      rcases hu with h | h | h | h
      · rw [h]; exact ⟨rfl, rfl⟩
      · rw [h]; exact ⟨rfl, rfl⟩
      · rw [h]; exact ⟨rfl, rfl⟩
      · simp at h
    · simp only [List.mem_append, List.mem_singleton] at hu
      rcases hu with (h | h) | h
      · exact (buildNonMemExtras_flags _ _ _ _ _
          (by intro v hv; simp at hv) (by intro v hv; simp at hv)).1 u h
      · rw [h]; exact ⟨rfl, rfl⟩
      · exact (buildNonMemExtras_flags _ _ _ _ _
          (by intro v hv; simp at hv) (by intro v hv; simp at hv)).2 u h

theorem markLast_length (l : List UopProperties) :
    (markLast l).length = l.length := by
  induction l with
  | nil => rfl
  | cons u rest ih =>
    cases rest with
    | nil => rfl
    | cons v t =>
      rw [markLast]
      simp only [List.length_cons]
      rw [ih]
      simp

theorem markLast_countP_first (l : List UopProperties) :
    (markLast l).countP (fun u => u.isFirstUopOfInstr)
      = l.countP (fun u => u.isFirstUopOfInstr) := by
  induction l with
  | nil => rfl
  | cons u rest ih =>
    cases rest with
    | nil => simp [markLast, List.countP_cons]
    | cons v t =>
      rw [markLast]
      simp only [List.countP_cons]
      rw [ih, List.countP_cons]

theorem markLast_countP_last (l : List UopProperties)
    (hall : ∀ u ∈ l, u.isLastUopOfInstr = false) (hne : l ≠ []) :
    (markLast l).countP (fun u => u.isLastUopOfInstr) = 1 := by
  induction l with
  | nil => exact absurd rfl hne
  | cons u rest ih =>
    cases rest with
    | nil => simp [markLast, List.countP_cons]
    | cons v t =>
      rw [markLast]
      simp only [List.countP_cons]
      rw [ih (fun w hw => hall w (List.mem_cons_of_mem u hw)) (by simp),
        hall u (List.mem_cons_self u _)]
      simp

theorem markLast_head_isFirst (u : UopProperties) (rest : List UopProperties) :
    ∃ h t, markLast (u :: rest) = h :: t
      ∧ h.isFirstUopOfInstr = u.isFirstUopOfInstr := by
  cases rest with
  | nil => exact ⟨_, _, rfl, rfl⟩
  | cons v t => exact ⟨_, _, rfl, rfl⟩

theorem markLast_ne_nil (l : List UopProperties) (hne : l ≠ []) :
    markLast l ≠ [] := by
  intro h0
  apply hne
  have := markLast_length l
  rw [h0] at this
  exact List.length_eq_zero.mp this.symm

theorem markLast_getLast (l : List UopProperties) (hne : l ≠ []) :
    ∃ v, (markLast l).getLast? = some v ∧ v.isLastUopOfInstr = true := by
  induction l with
  | nil => exact absurd rfl hne
  | cons u rest ih =>
    cases rest with
    | nil => exact ⟨_, rfl, rfl⟩
    | cons v t =>
      obtain ⟨w, hw, hwl⟩ := ih (by simp)
      refine ⟨w, ?_, hwl⟩
      rw [markLast]
      cases hm : markLast (v :: t) with
      | nil => exact absurd hm (markLast_ne_nil _ (by simp))
      | cons x xs =>
        rw [List.getLast?_cons_cons]
        rw [hm] at hw
        exact hw

theorem markFirstLast_spec (l : List UopProperties)
    (hall : ∀ u ∈ l, u.isFirstUopOfInstr = false ∧ u.isLastUopOfInstr = false)
    (hne : l ≠ []) :
    (markFirstLast l).length = l.length
    ∧ (markFirstLast l).countP (fun u => u.isFirstUopOfInstr) = 1
    ∧ (markFirstLast l).countP (fun u => u.isLastUopOfInstr) = 1
    ∧ (∃ h t, markFirstLast l = h :: t ∧ h.isFirstUopOfInstr = true)
    ∧ (∃ v, (markFirstLast l).getLast? = some v ∧ v.isLastUopOfInstr = true) := by
  cases l with
  | nil => exact absurd rfl hne
  | cons u rest =>
    rw [markFirstLast]
    refine ⟨?_, ?_, ?_, ?_, ?_⟩
    · rw [markLast_length]; rfl
    · rw [markLast_countP_first]
      simp only [List.countP_cons]
      rw [List.countP_eq_zero.mpr (fun w hw => by
        simp only [(hall w (List.mem_cons_of_mem u hw)).1, Bool.false_eq_true,
          not_false_eq_true])]
      simp
    · apply markLast_countP_last _ _ (by simp)
      intro w hw
      rcases List.mem_cons.mp hw with rfl | h
      · exact (hall u (List.mem_cons_self u _)).2
      · exact (hall w (List.mem_cons_of_mem u h)).2
    · obtain ⟨h, t, heq, hf⟩ := markLast_head_isFirst
        { u with isFirstUopOfInstr := true } rest
      exact ⟨h, t, heq, hf⟩
    · exact markLast_getLast _ (by simp)

theorem computeUopPropertiesInstr_shape (instr : Instr) (c0 : Nat) :
    ∃ padded : List UopProperties,
      (computeUopPropertiesInstr instr c0).1 = markFirstLast padded
      ∧ instr.retireSlots ≤ padded.length
      ∧ ∀ u ∈ padded, u.isFirstUopOfInstr = false ∧ u.isLastUopOfInstr = false := by
  refine ⟨_, rfl, ?_, ?_⟩
  · simp only [List.length_append, List.length_replicate]
    omega
  · intro u hu
    simp only [List.mem_append] at hu
    rcases hu with ((h | h) | h) | h
    · exact buildLoadUops_flags _ _ _ _ _ (by intro v hv; simp at hv) u h
    · exact buildNonMemUops_flags _ _ _ _ _ u h
    · exact buildStoreUops_flags _ _ _ _ _ (by intro v hv; simp at hv) u h
    · rw [List.eq_of_mem_replicate h]
      exact ⟨rfl, rfl⟩

/-- **C10**: for an instruction that is not macro-fused with its
predecessor (the case `computeUopProperties` actually processes) and that
has at least one retire slot, the computed `UopPropertiesList` contains at
least `retireSlots` entries (shorter lists are padded with portless uops),
exactly one entry has `isFirstUopOfInstr` set and it is the first entry,
and exactly one entry has `isLastUopOfInstr` set and it is the last
entry. -/
theorem computeUopProperties_flags (instr : Instr) (c0 : Nat)
    (hret : 1 ≤ instr.retireSlots) :
    instr.retireSlots ≤ ((computeUopPropertiesInstr instr c0).1).length
    ∧ ((computeUopPropertiesInstr instr c0).1).countP
        (fun u => u.isFirstUopOfInstr) = 1
    ∧ ((computeUopPropertiesInstr instr c0).1).countP
        (fun u => u.isLastUopOfInstr) = 1
    ∧ (∃ h t, (computeUopPropertiesInstr instr c0).1 = h :: t
        ∧ h.isFirstUopOfInstr = true)
    ∧ (∃ v, ((computeUopPropertiesInstr instr c0).1).getLast? = some v
        ∧ v.isLastUopOfInstr = true) := by
  obtain ⟨padded, heq, hlen, hall⟩ := computeUopPropertiesInstr_shape instr c0
  have hne : padded ≠ [] := by
    intro h0
    rw [h0] at hlen
    simp only [List.length_nil] at hlen
    omega
  obtain ⟨hl, hcf, hcl, hhd, hgl⟩ := markFirstLast_spec padded hall hne
  rw [heq]
  exact ⟨by rw [hl]; exact hlen, hcf, hcl, hhd, hgl⟩

theorem foldl_preserve {α β : Type} (f : α → β → α) (p : α → α → Prop)
    (hrefl : ∀ a, p a a) (htrans : ∀ a b c, p a b → p b c → p a c)
    (hstep : ∀ a b, p (f a b) a) :
    ∀ (l : List β) (a : α), p (l.foldl f a) a := by
  intro l
  induction l with
  | nil => intro a; exact hrefl a
  | cons b rest ih =>
    intro a
    rw [List.foldl_cons]
    exact htrans _ _ _ (ih (f a b)) (hstep a b)

theorem addNewCacheBlock_IDQ (cfg : FEConfig) (s : FEState)
    (cb : List FEInstrI) (h : s.uopSource ≠ some "LSD") :
    (addNewCacheBlock cfg s cb).IDQ = s.IDQ
    ∧ (addNewCacheBlock cfg s cb).uopSource = s.uopSource := by
  rw [addNewCacheBlock, if_neg h]
  refine foldl_preserve _
    (fun (a b : FEState) => a.IDQ = b.IDQ ∧ a.uopSource = b.uopSource)
    (fun a => ⟨rfl, rfl⟩)
    (fun a b c hab hbc => ⟨hab.1.trans hbc.1, hab.2.trans hbc.2⟩)
    ?_ _ _
  intro a b
  cases b with
  | nil => exact ⟨rfl, rfl⟩
  | cons i0 t =>
    dsimp only
    split
    · exact ⟨rfl, rfl⟩
    · exact ⟨rfl, rfl⟩

theorem foldl_addNewCacheBlock (cfg : FEConfig) :
    ∀ (round : List (List FEInstrI)) (s : FEState), s.uopSource ≠ some "LSD" →
      (round.foldl (addNewCacheBlock cfg) s).IDQ = s.IDQ
      ∧ (round.foldl (addNewCacheBlock cfg) s).uopSource = s.uopSource := by
  intro round
  induction round with
  | nil => intro s _; exact ⟨rfl, rfl⟩
  | cons cb rest ih =>
    intro s h
    rw [List.foldl_cons]
    have h1 := addNewCacheBlock_IDQ cfg s cb h
    have h2 := ih (addNewCacheBlock cfg s cb) (by rw [h1.2]; exact h)
    exact ⟨h2.1.trans h1.1, h2.2.trans h1.2⟩

theorem fetchNewBlocks_IDQ (cfg : FEConfig) :
    ∀ (fuel : Nat) (s : FEState), s.uopSource ≠ some "LSD" →
      (fetchNewBlocks cfg fuel s).IDQ = s.IDQ := by
  intro fuel
  induction fuel with
  | zero => intro s _; rfl
  | succ n ih =>
    intro s h
    rw [fetchNewBlocks]
    split
    · split
      · split
        · rfl
        · rename_i cb rest heq
          have h1 := addNewCacheBlock_IDQ cfg { s with cacheBlocks := rest } cb h
          rw [ih _ (by rw [h1.2]; exact h), h1.1]
      · split
        · rfl
        · rename_i round rest heq
          have h1 := foldl_addNewCacheBlock cfg round { s with nextRounds := rest } h
          rw [ih _ (by rw [h1.2]; exact h), h1.1]
    · rfl

theorem msCycle_fst_length (ms : MSState) : (msCycle ms).1.length ≤ 4 := by
  rw [msCycle]
  split
  · simp
  · split
    · simp
    · simp only [List.length_map, List.length_take]
      omega

theorem appendUopsToIDQ_length (us : List FELamUop) :
    ∀ s : FEState,
      (appendUopsToIDQ s us).IDQ.length ≤ s.IDQ.length + 2 * us.length := by
  induction us with
  | nil => intro s; simp [appendUopsToIDQ]
  | cons u rest ih =>
    intro s
    rw [show appendUopsToIDQ s (u :: rest) = appendUopsToIDQ
      (let r := addStackSyncUop u.firstUopIsFirstOfInstr u.stackInstr s.RSPOffset
       let idq1 := if r.1 then s.IDQ ++ [IDQItem.stackSync] else s.IDQ
       { s with RSPOffset := r.2, IDQ := idq1 ++ [IDQItem.lam u] }) rest from rfl]
    refine le_trans (ih _) ?_
    dsimp only
    split
    · simp only [List.length_append, List.length_cons, List.length_nil]
      omega
    · simp only [List.length_append, List.length_cons, List.length_nil]
      omega

theorem dsbReload_retList (s : DSBIter) : (dsbReload s).retList = s.retList := by
  rw [dsbReload]
  split
  · split
    · dsimp only
      split
      · split
        · rfl
        · rfl
      · rfl
    · rfl
  · rfl

theorem dsbAdvanceCur_retList (cfg : DSBConfig) (e : DSBEntry) (s : DSBIter) :
    (dsbAdvanceCur cfg e s).retList = s.retList := by
  simp only [dsbAdvanceCur]
  dsimp only [dsbPopCur, dsbClearCur]
  repeat' split
  all_goals rfl

theorem dsbStep_retList (cfg : DSBConfig) (s0 : DSBIter) :
    (dsbStep cfg s0).retList.length ≤ s0.retList.length + 1 := by
  simp only [dsbStep]
  split
  · omega
  · generalize hds : dsbReload s0 = t
    have hr : t.retList = s0.retList := by rw [hds.symm]; exact dsbReload_retList s0
    repeat' split
    all_goals try dsimp only [dsbPopCur]
    all_goals try simp only [dsbAdvanceCur_retList, List.length_append,
      List.length_cons, List.length_nil, hr]
    all_goals omega

theorem dsbLoop_retList (cfg : DSBConfig) :
    ∀ (fuel : Nat) (s : DSBIter),
      (dsbLoop cfg fuel s).retList.length ≤ s.retList.length + fuel := by
  intro fuel
  induction fuel with
  | zero => intro s; simp [dsbLoop]
  | succ n ih =>
    intro s
    rw [dsbLoop]
    refine le_trans (ih _) ?_
    have := dsbStep_retList cfg s
    omega

theorem dsbCycle_fst_length (cfg : DSBConfig)
    (queue : List (List (Option DSBEntry))) (ms : MSState) :
    (dsbCycle cfg queue ms).1.length ≤ cfg.DSBWidth := by
  rw [dsbCycle.eq_def]
  split
  · simp
  · split
    · simp
    · refine le_trans (dsbLoop_retList cfg cfg.DSBWidth _) ?_
      simp

theorem retireAux_fst_length (clock : Int) (fuel n : Nat)
    (rob : List RBFusedUop) :
    (retireAux fuel n clock rob).1.length ≤ rob.length := by
  have h := congrArg List.length (retireAux_spec clock fuel n rob).1
  simp only [List.length_append, List.length_map] at h
  omega

theorem rbCycle_rob_bound (W i w : Nat) (newUops : List RBFusedUop)
    (s : RBState)
    (hlen : s.rob.length ≤ W)
    (hgate : W < s.rob.length + i → newUops = [])
    (hissue : newUops.length ≤ i) :
    (rbCycle w newUops s).rob.length ≤ W := by
  simp only [rbCycle, retireUops, List.length_append, List.length_map]
  have h1 := retireAux_fst_length s.clock w 0 s.rob
  by_cases hc : W < s.rob.length + i
  · rw [hgate hc]
    simp only [List.length_nil]
    omega
  · omega

theorem schedAddCount_aux (l : List (List RSAddUop)) :
    ∀ n : Nat, (∀ f ∈ l, f.length ≤ 2) →
      l.foldl
        (fun n f => n + f.countP (fun u => u.hasPossiblePorts && !u.eliminated))
        n ≤ n + 2 * l.length := by
  induction l with
  | nil => intro n _; simp
  | cons f rest ih =>
    intro n h
    rw [List.foldl_cons]
    refine le_trans (ih _ (fun g hg => h g (List.mem_cons_of_mem f hg))) ?_
    have hc := List.countP_le_length
      (fun u => u.hasPossiblePorts && !u.eliminated) (l := f)
    have hf := h f (List.mem_cons_self f rest)
    simp only [List.length_cons]
    omega

theorem schedAddCount_le (l : List (List RSAddUop))
    (h : ∀ f ∈ l, f.length ≤ 2) : schedAddCount l ≤ 2 * l.length := by
  have := schedAddCount_aux l 0 h
  simpa [schedAddCount] using this

theorem fillPreDecQueue_fst_length (width : Nat) :
    ∀ (block pdq : List FEInstrI),
      (fillPreDecQueue width pdq block).1.length ≤ max width pdq.length := by
  intro block
  induction block with
  | nil =>
    intro pdq
    rw [fillPreDecQueue]
    exact le_max_right _ _
  | cons i rest ih =>
    intro pdq
    rw [fillPreDecQueue]
    split
    · rename_i h
      simp only [Bool.and_eq_true, decide_eq_true_eq] at h
      refine le_trans (ih (pdq ++ [i])) ?_
      simp only [List.length_append, List.length_cons, List.length_nil]
      omega
    · exact le_max_right _ _

theorem pdCycle_IQ_bound (cfg : PreDecoderConfig) (clock : Nat)
    (s : PreDecoderState)
    (hw : 1 ≤ cfg.preDecodeWidth)
    (hinv : s.instructionQueue.length + s.preDecQueue.length ≤ cfg.IQWidth) :
    (pdCycle cfg clock s).instructionQueue.length
      + (pdCycle cfg clock s).preDecQueue.length ≤ cfg.IQWidth := by
  simp only [pdCycle]
  split
  · split
    · rename_i hfill
      obtain ⟨hpdq, hblk2, hiqw⟩ := hfill
      cases hpi : s.partialInstrI with
      | none =>
        dsimp only
        cases hbq : s.B16BlockQueue with
        | nil =>
          dsimp only
          split
          · simp only [List.length_append, List.length_map, List.length_nil]
            omega
          · simp only [List.length_nil]
            omega
        | cons curBlock restBlocks =>
          have hb := fillPreDecQueue_fst_length cfg.preDecodeWidth curBlock []
          simp only [List.length_nil] at hb
          dsimp only
          generalize hF : fillPreDecQueue cfg.preDecodeWidth [] curBlock = F at hb ⊢
          obtain ⟨F1, F2⟩ := F
          dsimp only at hb ⊢
          repeat' split
          all_goals simp only [List.length_append, List.length_map,
            List.length_nil, List.length_cons]
          all_goals omega
      | some i =>
        dsimp only
        cases hbq : s.B16BlockQueue with
        | nil =>
          dsimp only
          split
          · simp only [List.length_append, List.length_map, List.length_nil,
              List.length_cons]
            omega
          · simp only [List.length_nil, List.length_cons]
            omega
        | cons curBlock restBlocks =>
          have hb := fillPreDecQueue_fst_length cfg.preDecodeWidth curBlock [i]
          simp only [List.length_cons, List.length_nil] at hb
          dsimp only
          generalize hF : fillPreDecQueue cfg.preDecodeWidth [i] curBlock = F at hb ⊢
          obtain ⟨F1, F2⟩ := F
          dsimp only at hb ⊢
          repeat' split
          all_goals simp only [List.length_append, List.length_map,
            List.length_nil, List.length_cons]
          all_goals omega
    · simp only [List.length_append, List.length_map, List.length_nil]
      omega
  · exact hinv

theorem fePostGuard_IDQ_bound (cfg : FEConfig) (s : FEState)
    (hsrc : s.uopSource = some "DSB") (hdsbw : 4 ≤ cfg.DSBWidth)
    (hg : s.IDQ.length + cfg.DSBWidth ≤ cfg.IDQWidth) :
    (fePostGuard cfg s).IDQ.length ≤ cfg.IDQWidth + cfg.DSBWidth := by
  rw [fePostGuard.eq_def, hsrc]
  dsimp only
  rw [if_neg (by decide : ¬("DSB" : String) = "LSD")]
  generalize hF : fetchNewBlocks cfg (s.cacheBlocks.length + s.nextRounds.length) s = f
  have hIDQ : f.IDQ = s.IDQ := by
    rw [hF.symm]
    exact fetchNewBlocks_IDQ cfg _ s (by rw [hsrc]; decide)
  split
  · refine le_trans (appendUopsToIDQ_length _ _) ?_
    have hm := msCycle_fst_length f.ms
    dsimp only
    rw [hIDQ]
    omega
  · rw [if_neg (by decide : ¬("DSB" : String) = "MITE")]
    refine le_trans (appendUopsToIDQ_length _ _) ?_
    have hn := le_trans
      (List.length_filterMap_le
        (fun (x : FEInstrI × Option FELamUop) => x.2)
        (dsbCycle ⟨cfg.DSBWidth, cfg.DSBBlockSize, cfg.DSB_MS_Stall⟩
          f.dsbBlockQueue f.ms).1)
      (dsbCycle_fst_length ⟨cfg.DSBWidth, cfg.DSBBlockSize, cfg.DSB_MS_Stall⟩
        f.dsbBlockQueue f.ms)
    dsimp only at hn
    repeat' split
    all_goals try dsimp only
    all_goals rw [hIDQ]
    all_goals omega

theorem frontEndCycle_IDQ_bound (cfg : FEConfig) (renamerPops : Nat)
    (s0 : FEState) (hsrc : s0.uopSource = some "DSB")
    (hdsbw : 4 ≤ cfg.DSBWidth) :
    (frontEndCycle cfg renamerPops s0).IDQ.length
      ≤ max s0.IDQ.length (cfg.IDQWidth + cfg.DSBWidth) := by
  simp only [frontEndCycle]
  split
  all_goals split
  · refine le_trans ?_ (le_max_left _ _)
    simp only [List.length_drop]
    omega
  · rename_i hg
    exact le_trans (fePostGuard_IDQ_bound cfg _ hsrc hdsbw (Nat.not_lt.mp hg))
      (le_max_right _ _)
  · refine le_trans ?_ (le_max_left _ _)
    simp only [List.length_drop]
    omega
  · rename_i hg
    exact le_trans (fePostGuard_IDQ_bound cfg _ hsrc hdsbw (Nat.not_lt.mp hg))
      (le_max_right _ _)

/-- **C6, counterexample**: the claimed width invariants do not all hold.
With the SKL configuration, a front-end state whose IDQ holds 58 entries
(within `IDQWidth = 64`, and past the fetch guard since 58 + 6 > 64 is
false), the reorder buffer full (so the renamer pops nothing) and the DSB
delivering a full 6-uop block of `POP`s at stack offset 192 ends the cycle
with 65 IDQ entries (6 delivered uops plus a stack-sync uop): the IDQ
exceeds `IDQWidth`.  Similarly, the scheduler gate (93 + 4 ≤ 97) passes
while four micro-fused store pairs add 8 reservation-station uops,
taking the occupancy to 101 > `RSWidth = 97`. -/
theorem feWidths_counterexample :
    feOverflowState.IDQ.length ≤ sklFEConfig.IDQWidth
    ∧ sklFEConfig.IDQWidth
        < (frontEndCycle sklFEConfig 4 feOverflowState).IDQ.length
    ∧ 93 + sklFEConfig.issueWidth ≤ sklFEConfig.RSWidth
    ∧ sklFEConfig.RSWidth
        < 93 + schedAddCount [storePairRS, storePairRS, storePairRS,
            storePairRS] :=
  ⟨by decide, by decide, by decide, by decide⟩

/-- **C6, amended**: the widths bound the structures as follows.  On the
DSB uop source, one front-end cycle can leave at most
`max (IDQ length) (IDQWidth + DSBWidth)` IDQ entries (the IDQ can
legitimately exceed `IDQWidth`, but only by at most `DSBWidth` beyond it,
stack-sync uops included); the reorder buffer never exceeds `RBWidth` (the
issue gate admits at most `issueWidth` fused uops only when
`RBWidth - issueWidth` is not exceeded); the reservation station can
overshoot `RSWidth` by at most `issueWidth` (each of at most `issueWidth`
fused uops contributes at most 2 unfused uops); and the predecoder
preserves `instructionQueue + preDecQueue ≤ IQWidth` (so the IQ itself
never exceeds `IQWidth`). -/
theorem feWidths_amended
    (cfg : FEConfig) (renamerPops : Nat) (s0 : FEState)
    (w : Nat) (rbNew : List RBFusedUop) (rbS : RBState)
    (rsLen : Nat) (rsNew : List (List RSAddUop))
    (pcfg : PreDecoderConfig) (clk : Nat) (ps : PreDecoderState)
    (hsrc : s0.uopSource = some "DSB")
    (hdsbw : 4 ≤ cfg.DSBWidth)
    (hrb : rbS.rob.length ≤ cfg.RBWidth)
    (hrbgate : cfg.RBWidth < rbS.rob.length + cfg.issueWidth → rbNew = [])
    (hrbissue : rbNew.length ≤ cfg.issueWidth)
    (hrsgate : rsLen + cfg.issueWidth ≤ cfg.RSWidth)
    (hrsissue : rsNew.length ≤ cfg.issueWidth)
    (hrsfused : ∀ f ∈ rsNew, f.length ≤ 2)
    (hpw : 1 ≤ pcfg.preDecodeWidth)
    (hpiq : ps.instructionQueue.length + ps.preDecQueue.length ≤ pcfg.IQWidth) :
    (frontEndCycle cfg renamerPops s0).IDQ.length
      ≤ max s0.IDQ.length (cfg.IDQWidth + cfg.DSBWidth)
    ∧ (rbCycle w rbNew rbS).rob.length ≤ cfg.RBWidth
    ∧ rsLen + schedAddCount rsNew ≤ cfg.RSWidth + cfg.issueWidth
    ∧ (pdCycle pcfg clk ps).instructionQueue.length
        + (pdCycle pcfg clk ps).preDecQueue.length ≤ pcfg.IQWidth := by
  refine ⟨frontEndCycle_IDQ_bound cfg renamerPops s0 hsrc hdsbw,
    rbCycle_rob_bound cfg.RBWidth cfg.issueWidth w rbNew rbS hrb hrbgate
      hrbissue,
    ?_, pdCycle_IQ_bound pcfg clk ps hpw hpiq⟩
  have h := schedAddCount_le rsNew hrsfused
  omega

/-- Witness for the amended C6 theorem: the SKL configuration with the
overflowing DSB state, an empty reorder buffer, an RS occupancy of 93 with
four issued store pairs, and the predecoder fixture. -/
theorem feWidths_amended_witness :
    (frontEndCycle sklFEConfig 4 feOverflowState).IDQ.length
      ≤ max feOverflowState.IDQ.length
          (sklFEConfig.IDQWidth + sklFEConfig.DSBWidth)
    ∧ (rbCycle 4 [] { clock := 0, rob := [], retireLog := [] }).rob.length
        ≤ sklFEConfig.RBWidth
    ∧ 93 + schedAddCount [storePairRS, storePairRS, storePairRS, storePairRS]
        ≤ sklFEConfig.RSWidth + sklFEConfig.issueWidth
    ∧ (pdCycle pdCexConfig 0 pdCexState).instructionQueue.length
        + (pdCycle pdCexConfig 0 pdCexState).preDecQueue.length
        ≤ pdCexConfig.IQWidth :=
  feWidths_amended sklFEConfig 4 feOverflowState 4 []
    { clock := 0, rob := [], retireLog := [] }
    93 [storePairRS, storePairRS, storePairRS, storePairRS]
    pdCexConfig 0 pdCexState
    rfl (by decide) (by decide) (fun h => rfl) (by decide)
    (by decide) (by decide) (by decide) (by decide) (by decide)

/-- Witness for C10 at the concrete instruction `UnknownInstr "" "" 0`
(one retire slot, one uop). -/
theorem computeUopProperties_flags_witness :
    (UnknownInstr "" "" 0).retireSlots
        ≤ ((computeUopPropertiesInstr (UnknownInstr "" "" 0) 0).1).length
    ∧ ((computeUopPropertiesInstr (UnknownInstr "" "" 0) 0).1).countP
        (fun u => u.isFirstUopOfInstr) = 1
    ∧ ((computeUopPropertiesInstr (UnknownInstr "" "" 0) 0).1).countP
        (fun u => u.isLastUopOfInstr) = 1
    ∧ (∃ h t, (computeUopPropertiesInstr (UnknownInstr "" "" 0) 0).1 = h :: t
        ∧ h.isFirstUopOfInstr = true)
    ∧ (∃ v, ((computeUopPropertiesInstr (UnknownInstr "" "" 0) 0).1).getLast?
          = some v
        ∧ v.isLastUopOfInstr = true) :=
  computeUopProperties_flags (UnknownInstr "" "" 0) 0 (by decide)

end UiCA
